import Mathlib

/-!
# Reference-counted `Pointer<T, size>` (gc_details.h, gc_pointer.h, gc_iterator.h)

Shallow embedding of the garbage-collected pointer library and of its bounds-checked cursor.

* Addresses (`T *`) are natural numbers; `0` is `NULL`.
* The C++ type `unsigned` is a natural number below `2 ^ 32`; `++` and `--` on a reference
  count are computed in the integers and reduced modulo `2 ^ 32`, so they wrap around.
* The static members of one instantiation `Pointer<T, size>` together with the trace of the
  `delete` / `delete[]` calls made so far form the record `Gc`; every operation passes it
  explicitly.
* `std::list` is `List` (front = head); a list iterator is a position, `end()` is the length.
* A failed `assert` ends the process: the operation returns `none`.
-/

namespace GC

/-! ## gc_details.h -/

/-- Raw address `T *`; `0` is `NULL`. -/
abbrev Addr := Nat

/-- Number of values of the C++ type `unsigned`. -/
def UINT_MOD : Nat := 2 ^ 32

/-- Conversion of an integer to `unsigned`: reduction modulo `2 ^ 32`. -/
def toUnsigned (n : Int) : Nat := (n % (UINT_MOD : Int)).toNat

/-- Conversion `unsigned → int` (two's complement). -/
def toInt (u : Nat) : Int := if u % UINT_MOD < 2 ^ 31 then (u % UINT_MOD : Nat) else (u % UINT_MOD : Nat) - (UINT_MOD : Int)

/-- Class `PtrDetails<T>`: one element of the garbage collection list. -/
structure PtrDetails where
  /-- current reference count -/
  ref_count_ : Nat
  /-- pointer to allocated memory -/
  mem_ptr_ : Addr
  /-- true if `mem_ptr_` points to an allocated array -/
  is_array_ : Bool
  /-- size of the array, if any -/
  array_size_ : Nat
  deriving DecidableEq

/-- Constructor `PtrDetails(T *pointer, const int array_size)`. -/
def PtrDetails.ctor (pointer : Addr) (array_size : Int) : PtrDetails :=
  { mem_ptr_ := pointer
    array_size_ := toUnsigned array_size
    is_array_ := decide (array_size ≠ 0)
    ref_count_ := 1 }

/-- The free `operator==` on `PtrDetails`: equality of the addresses. -/
def PtrDetails.eq (ob1 ob2 : PtrDetails) : Bool := decide (ob1.mem_ptr_ = ob2.mem_ptr_)

/-- Effect of `ref_count_++` on a record. -/
def PtrDetails.incr (r : PtrDetails) : PtrDetails :=
  { r with ref_count_ := toUnsigned ((r.ref_count_ : Int) + 1) }

/-- Effect of `ref_count_--` on a record. -/
def PtrDetails.decr (r : PtrDetails) : PtrDetails :=
  { r with ref_count_ := toUnsigned ((r.ref_count_ : Int) - 1) }

/-! ## gc_pointer.h: static state -/

/-- One call of `delete` (`false`) or `delete[]` (`true`) on an address. -/
abbrev Release := Addr × Bool

/-- Static members of `Pointer<T, size>` and the effects on the outside world. -/
structure Gc where
  /-- the garbage collection list -/
  ref_container_ : List PtrDetails
  /-- true until the first `Pointer` is created -/
  first_ : Bool
  /-- number of times `Shutdown` was registered with `atexit` -/
  atexit_ : Nat
  /-- the `delete` / `delete[]` calls made so far, oldest first -/
  released : List Release
  deriving DecidableEq

/-- State at program start: empty list, `first_ = true`. -/
def Gc.init : Gc := { ref_container_ := [], first_ := true, atexit_ := 0, released := [] }

/-- Instance members of a `Pointer<T, size>`. -/
structure Pointer where
  /-- address this `Pointer` currently points to -/
  addr_ : Addr
  /-- true if this `Pointer` points to an allocated array -/
  is_array_ : Bool
  /-- size of the array, if any -/
  array_size_ : Nat
  deriving DecidableEq

/-- `Pointer::FindPtrInfo`: position of the first record whose `mem_ptr_` is `ptr`, the length
of the list (`end()`) when there is none. -/
def FindPtrInfo : List PtrDetails → Addr → Nat
  | [], _ => 0
  | r :: rs, ptr => if r.mem_ptr_ = ptr then 0 else FindPtrInfo rs ptr + 1

/-- Write through a list iterator: apply `f` to the record at position `p`. -/
def updateAt (f : PtrDetails → PtrDetails) : Nat → List PtrDetails → List PtrDetails
  | _, [] => []
  | 0, r :: rs => f r :: rs
  | p + 1, r :: rs => r :: updateAt f p rs

/-- `Pointer::RefContainerSize`. -/
def RefContainerSize (g : Gc) : Nat := g.ref_container_.length

/-- The lambda `predicate` of `Collect`, with the captured flag `deleted` and the release trace
made explicit: result, new flag, new trace. -/
def Collect.predicate (ptr_details : PtrDetails) (deleted : Bool) (released : List Release) :
    Bool × Bool × List Release :=
  if ptr_details.ref_count_ = 0 then
    (true, true, released ++ [(ptr_details.mem_ptr_, ptr_details.is_array_)])
  else
    (false, deleted, released)

/-- The call `std::remove_if(begin, end, predicate)` followed by `erase`: the predicate is
applied once to each element, front to back, and the elements for which it is false are kept in
order. -/
def remove_if : List PtrDetails → Bool → List Release → List PtrDetails × Bool × List Release
  | [], deleted, released => ([], deleted, released)
  | r :: rs, deleted, released =>
    match Collect.predicate r deleted released with
    | (rm, deleted1, released1) =>
      match remove_if rs deleted1 released1 with
      | (kept, deleted2, released2) => (if rm then kept else r :: kept, deleted2, released2)

/-- `Pointer::Collect`: the new state and the returned flag. -/
def Collect (g : Gc) : Gc × Bool :=
  match remove_if g.ref_container_ false g.released with
  | (kept, deleted, released) => ({ g with ref_container_ := kept, released := released }, deleted)

/-! ## gc_pointer.h: constructors, destructor, assignment -/

/-- The converting constructor `Pointer(T *ptr)` of the instantiation with template argument
`size`. -/
def Pointer.ctor (size : Int) (ptr : Addr) (g : Gc) : Gc × Pointer :=
  let this : Pointer := { addr_ := ptr, is_array_ := decide (size > 0), array_size_ := toUnsigned size }
  let g1 : Gc := { g with atexit_ := if g.first_ then g.atexit_ + 1 else g.atexit_, first_ := false }
  let p := FindPtrInfo g1.ref_container_ this.addr_
  if p = g1.ref_container_.length then
    ({ g1 with ref_container_ := PtrDetails.ctor this.addr_ (toInt this.array_size_) :: g1.ref_container_ }, this)
  else
    ({ g1 with ref_container_ := updateAt PtrDetails.incr p g1.ref_container_ }, this)

/-- The copy constructor `Pointer(const Pointer &pointer)`; `none` when the assertion fails. -/
def Pointer.copy_ctor (pointer : Pointer) (g : Gc) : Option (Gc × Pointer) :=
  let this : Pointer :=
    { addr_ := pointer.addr_, is_array_ := pointer.is_array_, array_size_ := pointer.array_size_ }
  let p := FindPtrInfo g.ref_container_ this.addr_
  if p = g.ref_container_.length then none
  else some ({ g with ref_container_ := updateAt PtrDetails.incr p g.ref_container_ }, this)

/-- The destructor `~Pointer()`; `none` when the assertion fails. -/
def Pointer.dtor (this : Pointer) (g : Gc) : Option Gc :=
  let p := FindPtrInfo g.ref_container_ this.addr_
  if p = g.ref_container_.length then none
  else some (Collect { g with ref_container_ := updateAt PtrDetails.decr p g.ref_container_ }).1

/-- Assignment of a raw pointer, `T *operator=(T *prt)`: new state, new value of `*this` and the
returned address (`*this` converted by `operator T *()`); `none` when the assertion fails. -/
def Pointer.assign_raw (size : Int) (this : Pointer) (prt : Addr) (g : Gc) :
    Option (Gc × Pointer × Addr) :=
  if this.addr_ = prt then some (g, this, this.addr_)
  else
    let p := FindPtrInfo g.ref_container_ this.addr_
    if p = g.ref_container_.length then none
    else
      let g1 := (Collect { g with ref_container_ := updateAt PtrDetails.decr p g.ref_container_ }).1
      let this1 : Pointer := { this with addr_ := prt }
      let p1 := FindPtrInfo g1.ref_container_ this1.addr_
      if p1 = g1.ref_container_.length then
        some ({ g1 with ref_container_ := PtrDetails.ctor this1.addr_ size :: g1.ref_container_ },
          this1, this1.addr_)
      else
        some ({ g1 with ref_container_ := updateAt PtrDetails.incr p1 g1.ref_container_ },
          this1, this1.addr_)

/-- Assignment of a `Pointer`, `Pointer &operator=(const Pointer &pointer)`: new state and new
value of `*this`; `none` when an assertion fails. -/
def Pointer.assign (this pointer : Pointer) (g : Gc) : Option (Gc × Pointer) :=
  if this.addr_ = pointer.addr_ then some (g, this)
  else
    let p := FindPtrInfo g.ref_container_ this.addr_
    if p = g.ref_container_.length then none
    else
      let g1 := (Collect { g with ref_container_ := updateAt PtrDetails.decr p g.ref_container_ }).1
      let this1 : Pointer := { this with addr_ := pointer.addr_ }
      let p1 := FindPtrInfo g1.ref_container_ this1.addr_
      if p1 = g1.ref_container_.length then none
      else some ({ g1 with ref_container_ := updateAt PtrDetails.incr p1 g1.ref_container_ }, this1)

/-- `Pointer::Shutdown`. -/
def Shutdown (g : Gc) : Gc :=
  if RefContainerSize g = 0 then g
  else
    (Collect { g with ref_container_ := g.ref_container_.map fun r => { r with ref_count_ := 0 } }).1

/-- The default constructor `Pointer() { Pointer(NULL); }`: its body builds a temporary
`Pointer(NULL)`, which is destroyed at the end of the statement; no member of the object under
construction is written. `storage` is the content of the object's memory before the call, and
the second component of the result is its content afterwards; `none` when the assertion in the
destructor of the temporary fails. -/
def Pointer.default_ctor (size : Int) (storage : Pointer) (g : Gc) : Option (Gc × Pointer) :=
  match Pointer.ctor size 0 g with
  | (g1, tmp) =>
    match Pointer.dtor tmp g1 with
    | none => none
    | some g2 => some (g2, storage)

/-! ## gc_iterator.h

A `T *` is an integer counted in elements (`NULL` is `0`), so that `p + n` is integer addition;
a reference `T &` is the location of the element it refers to. Every member function returns its
result together with the value of `*this` after the call. -/

/-- Class `OutOfRangeExc`. -/
inductive OutOfRangeExc where
  | mk
  deriving DecidableEq

/-- Conversion of a pointer difference to `int`. -/
def toInt32 (z : Int) : Int := toInt (toUnsigned z)

/-- Data members of `Iter<T>`. -/
structure Iter where
  /-- current pointer value -/
  ptr_ : Int
  /-- points to element one past end -/
  end_ : Int
  /-- points to start of allocated array -/
  begin_ : Int
  /-- length of sequence -/
  length_ : Nat
  deriving DecidableEq

/-- Constructor `Iter()`. -/
def Iter.default : Iter := { ptr_ := 0, end_ := 0, begin_ := 0, length_ := 0 }

/-- Constructor `Iter(T *p, T *first, T *last)`. -/
def Iter.ctor (p first last : Int) : Iter :=
  { ptr_ := p, end_ := last, begin_ := first, length_ := toUnsigned (last - first) }

/-- `Iter::size`. -/
def Iter.size (it : Iter) : Nat × Iter := (it.length_, it)

/-- `T &operator*()`. -/
def Iter.deref (it : Iter) : Except OutOfRangeExc Int × Iter :=
  if it.ptr_ ≥ it.end_ ∨ it.ptr_ < it.begin_ then (.error .mk, it)
  else (.ok it.ptr_, it)

/-- `T *operator->()`. -/
def Iter.arrow (it : Iter) : Except OutOfRangeExc Int × Iter :=
  if it.ptr_ ≥ it.end_ ∨ it.ptr_ < it.begin_ then (.error .mk, it)
  else (.ok it.ptr_, it)

/-- Prefix `++`: the returned copy of `*this` and the new `*this`. -/
def Iter.pre_inc (it : Iter) : Iter × Iter :=
  let this : Iter := { it with ptr_ := it.ptr_ + 1 }
  (this, this)

/-- Prefix `--`. -/
def Iter.pre_dec (it : Iter) : Iter × Iter :=
  let this : Iter := { it with ptr_ := it.ptr_ - 1 }
  (this, this)

/-- Postfix `++`. -/
def Iter.post_inc (it : Iter) : Iter × Iter :=
  let tmp := it.ptr_
  let this : Iter := { it with ptr_ := it.ptr_ + 1 }
  (Iter.ctor tmp this.begin_ this.end_, this)

/-- Postfix `--`. -/
def Iter.post_dec (it : Iter) : Iter × Iter :=
  let tmp := it.ptr_
  let this : Iter := { it with ptr_ := it.ptr_ - 1 }
  (Iter.ctor tmp this.begin_ this.end_, this)

/-- `T &operator[](int i)`. -/
def Iter.index (it : Iter) (i : Int) : Except OutOfRangeExc Int × Iter :=
  if i < 0 ∨ i ≥ it.end_ - it.begin_ then (.error .mk, it)
  else (.ok (it.ptr_ + i), it)

/-- `operator==`. -/
def Iter.eq (it op2 : Iter) : Bool := decide (it.ptr_ = op2.ptr_)

/-- `operator!=`. -/
def Iter.ne (it op2 : Iter) : Bool := decide (it.ptr_ ≠ op2.ptr_)

/-- `operator<`. -/
def Iter.lt (it op2 : Iter) : Bool := decide (it.ptr_ < op2.ptr_)

/-- `operator<=`. -/
def Iter.le (it op2 : Iter) : Bool := decide (it.ptr_ ≤ op2.ptr_)

/-- `operator>`. -/
def Iter.gt (it op2 : Iter) : Bool := decide (it.ptr_ > op2.ptr_)

/-- `operator>=`. -/
def Iter.ge (it op2 : Iter) : Bool := decide (it.ptr_ ≥ op2.ptr_)

/-- `Iter operator-(int n)`: subtract an integer from an `Iter`. -/
def Iter.sub_int (it : Iter) (n : Int) : Iter × Iter :=
  let this : Iter := { it with ptr_ := it.ptr_ - n }
  (this, this)

/-- `Iter operator+(int n)`: add an integer to an `Iter`. -/
def Iter.add_int (it : Iter) (n : Int) : Iter × Iter :=
  let this : Iter := { it with ptr_ := it.ptr_ + n }
  (this, this)

/-- `int operator-(Iter<T> &itr2)`: number of elements between two `Iter`s. -/
def Iter.diff (it itr2 : Iter) : Int := toInt32 (it.ptr_ - itr2.ptr_)

/-- `Pointer::Begin`. -/
def Pointer.Begin (this : Pointer) : Iter :=
  let _size : Int := if this.is_array_ then toInt this.array_size_ else 1
  Iter.ctor this.addr_ this.addr_ (this.addr_ + _size)

/-- `Pointer::End`. -/
def Pointer.End (this : Pointer) : Iter :=
  let _size : Int := if this.is_array_ then toInt this.array_size_ else 1
  Iter.ctor (this.addr_ + _size) this.addr_ (this.addr_ + _size)

/-! ## Programs using the library: live handles and runs -/

/-- A program state: the static state of the instantiation and the `Pointer` objects created so
far. Object `i` is slot `i` of `handles`; a destroyed object leaves `none` in its slot. -/
structure World where
  /-- static state and release trace -/
  gc : Gc
  /-- the `Pointer` objects, `none` once destroyed -/
  handles : List (Option Pointer)
  deriving DecidableEq

/-- Program start: no object, empty table. -/
def World.init : World := { gc := Gc.init, handles := [] }

/-- The live object in slot `h`, if any. -/
def World.handle (w : World) (h : Nat) : Option Pointer := w.handles.getD h none

/-- Number of live objects among `hs` whose `addr_` is `a`. -/
def liveAt (hs : List (Option Pointer)) (a : Addr) : Nat :=
  hs.countP fun o => match o with
    | some p => decide (p.addr_ = a)
    | none => false

/-- Contribution of one slot to `liveAt`. -/
def weight (o : Option Pointer) (a : Addr) : Nat :=
  match o with
  | some p => if p.addr_ = a then 1 else 0
  | none => 0

/-- One library call made by the program. -/
inductive Op where
  /-- `Pointer p(ptr)`: a new object -/
  | construct (ptr : Addr)
  /-- `Pointer p(src)`: a new object copied from object `src` -/
  | copy (src : Nat)
  /-- object `h` is destroyed -/
  | destruct (h : Nat)
  /-- `h = ptr` -/
  | assign_raw (h : Nat) (ptr : Addr)
  /-- `h = src` -/
  | assign (h src : Nat)
  /-- `Pointer::Collect()` -/
  | collect
  /-- `Pointer::Shutdown()` -/
  | shutdown
  deriving DecidableEq

/-- The calls that create, destroy or reassign an object. -/
def Op.onHandle : Op → Bool
  | .collect => false
  | .shutdown => false
  | _ => true

/-- Result of one call. -/
inductive Outcome where
  /-- the call returned -/
  | ok (w : World)
  /-- the call names an object that is not live: not a call the program can make -/
  | not_live
  /-- an `assert` of the library failed -/
  | broken_invariant
  deriving DecidableEq

/-- Effect of one call on the program state, for the instantiation with template argument
`size`. -/
def step (size : Int) (w : World) : Op → Outcome
  | .construct ptr =>
    match Pointer.ctor size ptr w.gc with
    | (g, p) => .ok { gc := g, handles := w.handles ++ [some p] }
  | .copy src =>
    match w.handle src with
    | none => .not_live
    | some q =>
      match Pointer.copy_ctor q w.gc with
      | none => .broken_invariant
      | some (g, p) => .ok { gc := g, handles := w.handles ++ [some p] }
  | .destruct h =>
    match w.handle h with
    | none => .not_live
    | some q =>
      match Pointer.dtor q w.gc with
      | none => .broken_invariant
      | some g => .ok { gc := g, handles := w.handles.set h none }
  | .assign_raw h ptr =>
    match w.handle h with
    | none => .not_live
    | some q =>
      match Pointer.assign_raw size q ptr w.gc with
      | none => .broken_invariant
      | some (g, p, _) => .ok { gc := g, handles := w.handles.set h (some p) }
  | .assign h src =>
    match w.handle h, w.handle src with
    | some q, some r =>
      match Pointer.assign q r w.gc with
      | none => .broken_invariant
      | some (g, p) => .ok { gc := g, handles := w.handles.set h (some p) }
    | _, _ => .not_live
  | .collect => .ok { w with gc := (Collect w.gc).1 }
  | .shutdown => .ok { w with gc := Shutdown w.gc }

/-- Effect of a sequence of calls; stops at the first call that does not return. -/
def run (size : Int) : List Op → World → Outcome
  | [], w => .ok w
  | op :: ops, w =>
    match step size w op with
    | .ok w1 => run size ops w1
    | out => out

/-- States reachable from program start by calls that satisfy `allowed`, passing only through
states that satisfy `within`. -/
inductive Reach (size : Int) (allowed : Op → Prop) (within : World → Prop) : World → Prop where
  | init : Reach size allowed within World.init
  | next {w w1 : World} (op : Op) : Reach size allowed within w → allowed op →
      step size w op = .ok w1 → within w1 → Reach size allowed within w1

/-- Reachable by constructions, copies, destructions and assignments on live objects. -/
def Reachable (size : Int) : World → Prop :=
  Reach size (fun op => op.onHandle = true) (fun _ => True)

/-- Reachable by any call, `Collect` and `Shutdown` included. -/
def ReachableAny (size : Int) : World → Prop :=
  Reach size (fun _ => True) (fun _ => True)

/-- No address has `2 ^ 32` or more live objects pointing to it. -/
def Bounded (w : World) : Prop := ∀ a, liveAt w.handles a < UINT_MOD

/-- Reachable by constructions, copies, destructions and assignments on live objects, with fewer
than `2 ^ 32` live objects per address at every moment. -/
def ReachableBounded (size : Int) : World → Prop :=
  Reach size (fun op => op.onHandle = true) Bounded

/-- The cursor after `k` prefix increments `++it`. -/
def incTimes : Nat → Iter → Iter
  | 0, it => it
  | k + 1, it => incTimes k (Iter.pre_inc it).2

/-! ## Several instantiations over one element type -/

/-- The program state of every instantiation `Pointer<T, size>` of one element type `T`, by
`size`: each instantiation has its own static members and its own objects. -/
abbrev Instances := Int → World

/-- A call made on instantiation `size`: it runs `step size` on the state of that
instantiation; `none` when the call does not return. -/
def stepIn (size : Int) (u : Instances) (op : Op) : Option Instances :=
  match step size (u size) op with
  | .ok w1 => some (Function.update u size w1)
  | _ => none

/-! ## Runs with very many copies of one object -/

/-- The state after `Pointer p0(new int)` at address 10 and `n` copies of `p0`, in the
instantiation `Pointer<int, 0>`: the count of the record has been incremented `n` times. -/
def manyCopies (n : Nat) : World :=
  { gc := { ref_container_ := [⟨(n + 1) % UINT_MOD, 10, false, 0⟩],
            first_ := false, atexit_ := 1, released := [] },
    handles := List.replicate (n + 1) (some ⟨10, false, 0⟩) }

/-- The state `manyCopies n` followed by `Pointer r(new int)` at address 20. -/
def withSecond (n : Nat) : World :=
  { gc := { ref_container_ := [⟨1, 20, false, 0⟩, ⟨(n + 1) % UINT_MOD, 10, false, 0⟩],
            first_ := false, atexit_ := 1, released := [] },
    handles := List.replicate (n + 1) (some ⟨10, false, 0⟩) ++ [some ⟨20, false, 0⟩] }

/-- The state with `n + 1` live objects for address 10, an empty table and both addresses
released. -/
def orphaned (n : Nat) : World :=
  { gc := { ref_container_ := [], first_ := false, atexit_ := 1,
            released := [(20, false), (10, false)] },
    handles := List.replicate (n + 1) (some ⟨10, false, 0⟩) ++ [none] }

/-! ## Vocabulary of the statements -/

/-- Addresses of the records, in list order. -/
def addrs (t : List PtrDetails) : List Addr := t.map fun r => r.mem_ptr_

/-- The record the lookup `FindPtrInfo` finds for address `a`, if any. -/
def lookup (t : List PtrDetails) (a : Addr) : Option PtrDetails := t[FindPtrInfo t a]?

/-- Reference count of the record found for `a`; `0` when there is none. -/
def refCountOf (t : List PtrDetails) (a : Addr) : Nat :=
  match lookup t a with
  | some r => r.ref_count_
  | none => 0

/-- The release a collection pass makes for a record it removes. -/
def releaseOf (r : PtrDetails) : Release := (r.mem_ptr_, r.is_array_)

/-- Every record has a reference count of at least one. -/
def NoZero (t : List PtrDetails) : Prop := ∀ r ∈ t, 1 ≤ r.ref_count_

instance (t : List PtrDetails) : Decidable (NoZero t) := by
  unfold NoZero
  infer_instance

/-- The table `t` mirrors the counting function `f`: distinct addresses, no zero count, and the
count recorded for each address is `f` of that address (`0` when there is no record). -/
def Good (t : List PtrDetails) (f : Addr → Nat) : Prop :=
  (addrs t).Nodup ∧ NoZero t ∧ ∀ a, refCountOf t a = f a

/-- The table of `w` mirrors the live objects of `w`. -/
def Inv (w : World) : Prop := Good w.gc.ref_container_ (liveAt w.handles)

/-- The releases made between `w` and `w1` are exactly one release for each address that has a
live object in `w` and none in `w1`. -/
def ReleasesDropped (w w1 : World) : Prop :=
  ∃ delta, w1.gc.released = w.gc.released ++ delta ∧ (delta.map Prod.fst).Nodup ∧
    ∀ a, a ∈ delta.map Prod.fst ↔ (0 < liveAt w.handles a ∧ liveAt w1.handles a = 0)

/-- The lookup-or-register step shared by `Pointer(T *)` and `operator=(T *)`. -/
def registered (t : List PtrDetails) (a : Addr) (sz : Int) : List PtrDetails :=
  if FindPtrInfo t a = t.length then PtrDetails.ctor a sz :: t
  else updateAt PtrDetails.incr (FindPtrInfo t a) t

/-- The table after the decrement for address `a`, before the collection pass. -/
def decremented (t : List PtrDetails) (a : Addr) : List PtrDetails :=
  updateAt PtrDetails.decr (FindPtrInfo t a) t

/-- The state after the decrement for address `a` and the collection pass that follows it: the
first half of the destructor and of both assignment operators. -/
def afterDecrement (g : Gc) (a : Addr) : Gc :=
  (Collect { g with ref_container_ := decremented g.ref_container_ a }).1

/-! ## Lookup and update -/

theorem addrs_nil : addrs [] = [] := rfl

theorem addrs_cons (r : PtrDetails) (rs : List PtrDetails) :
    addrs (r :: rs) = r.mem_ptr_ :: addrs rs := rfl

theorem mem_addrs {t : List PtrDetails} {a : Addr} : a ∈ addrs t ↔ ∃ r ∈ t, r.mem_ptr_ = a := by
  simp [addrs]

theorem FindPtrInfo_le (t : List PtrDetails) (a : Addr) : FindPtrInfo t a ≤ t.length := by
  induction t with
  | nil => simp [FindPtrInfo]
  | cons r rs ih =>
    by_cases h : r.mem_ptr_ = a <;> simp [FindPtrInfo, h]
    exact ih

theorem FindPtrInfo_eq_length (t : List PtrDetails) (a : Addr) :
    FindPtrInfo t a = t.length ↔ a ∉ addrs t := by
  induction t with
  | nil => simp [FindPtrInfo, addrs]
  | cons r rs ih =>
    by_cases h : r.mem_ptr_ = a
    · simp [FindPtrInfo, addrs, h]
    · have h1 : ¬ a = r.mem_ptr_ := fun e => h e.symm
      simp only [addrs] at ih
      simp [FindPtrInfo, addrs, h, h1, ih]

theorem lookup_nil (a : Addr) : lookup [] a = none := by
  simp [lookup]

theorem lookup_cons (r : PtrDetails) (rs : List PtrDetails) (a : Addr) :
    lookup (r :: rs) a = if r.mem_ptr_ = a then some r else lookup rs a := by
  by_cases h : r.mem_ptr_ = a <;> simp [lookup, FindPtrInfo, h]

theorem lookup_eq_none (t : List PtrDetails) (a : Addr) : lookup t a = none ↔ a ∉ addrs t := by
  rw [← FindPtrInfo_eq_length]
  have := FindPtrInfo_le t a
  simp only [lookup, List.getElem?_eq_none_iff]
  omega

theorem lookup_some_mem {t : List PtrDetails} {a : Addr} {r : PtrDetails}
    (h : lookup t a = some r) : r ∈ t ∧ r.mem_ptr_ = a := by
  induction t with
  | nil => simp [lookup_nil] at h
  | cons x xs ih =>
    rw [lookup_cons] at h
    by_cases hx : x.mem_ptr_ = a
    · simp only [hx, if_true, Option.some.injEq] at h
      subst h
      exact ⟨List.mem_cons_self _ _, hx⟩
    · simp only [hx, if_false] at h
      exact ⟨List.mem_cons_of_mem _ (ih h).1, (ih h).2⟩

theorem lookup_of_mem_nodup {t : List PtrDetails} {r : PtrDetails} (hn : (addrs t).Nodup)
    (h : r ∈ t) : lookup t r.mem_ptr_ = some r := by
  induction t with
  | nil => simp at h
  | cons x xs ih =>
    rw [lookup_cons]
    simp only [addrs, List.map_cons, List.nodup_cons, List.mem_map, not_exists, not_and] at hn
    rcases List.mem_cons.mp h with rfl | h1
    · simp
    · have hx : ¬ x.mem_ptr_ = r.mem_ptr_ := fun e => hn.1 r h1 e.symm
      simp only [hx, if_false]
      exact ih hn.2 h1

theorem refCountOf_nil (a : Addr) : refCountOf [] a = 0 := by
  simp [refCountOf, lookup_nil]

theorem refCountOf_cons (r : PtrDetails) (rs : List PtrDetails) (a : Addr) :
    refCountOf (r :: rs) a = if r.mem_ptr_ = a then r.ref_count_ else refCountOf rs a := by
  by_cases h : r.mem_ptr_ = a <;> simp [refCountOf, lookup_cons, h]

theorem updateAt_length (f : PtrDetails → PtrDetails) (p : Nat) (t : List PtrDetails) :
    (updateAt f p t).length = t.length := by
  induction t generalizing p with
  | nil => simp [updateAt]
  | cons r rs ih => cases p <;> simp [updateAt, ih]

theorem updateAt_find_cons (f : PtrDetails → PtrDetails) (r : PtrDetails) (rs : List PtrDetails)
    (a : Addr) :
    updateAt f (FindPtrInfo (r :: rs) a) (r :: rs) =
      if r.mem_ptr_ = a then f r :: rs else r :: updateAt f (FindPtrInfo rs a) rs := by
  by_cases h : r.mem_ptr_ = a <;> simp [FindPtrInfo, updateAt, h]

theorem addrs_updateAt (f : PtrDetails → PtrDetails) (hf : ∀ r, (f r).mem_ptr_ = r.mem_ptr_)
    (p : Nat) (t : List PtrDetails) : addrs (updateAt f p t) = addrs t := by
  induction t generalizing p with
  | nil => simp [updateAt]
  | cons r rs ih =>
    cases p with
    | zero => simp [updateAt, addrs_cons, hf]
    | succ n => simp only [updateAt, addrs_cons, ih]

theorem UINT_MOD_eq : UINT_MOD = 4294967296 := by norm_num [UINT_MOD]

theorem toUnsigned_succ (c : Nat) (h : c + 1 < UINT_MOD) : toUnsigned ((c : Int) + 1) = c + 1 := by
  unfold toUnsigned
  rw [UINT_MOD_eq] at *
  omega

theorem toUnsigned_pred (c : Nat) (h1 : 1 ≤ c) (h : c < UINT_MOD) :
    toUnsigned ((c : Int) - 1) = c - 1 := by
  unfold toUnsigned
  rw [UINT_MOD_eq] at *
  omega

theorem incr_mem_ptr (r : PtrDetails) : r.incr.mem_ptr_ = r.mem_ptr_ := rfl

theorem incr_ref_count (r : PtrDetails) :
    r.incr.ref_count_ = toUnsigned ((r.ref_count_ : Int) + 1) := rfl

theorem decr_ref_count (r : PtrDetails) :
    r.decr.ref_count_ = toUnsigned ((r.ref_count_ : Int) - 1) := rfl

theorem decr_mem_ptr (r : PtrDetails) : r.decr.mem_ptr_ = r.mem_ptr_ := rfl

theorem lookup_updateAt_find (f : PtrDetails → PtrDetails)
    (hf : ∀ r, (f r).mem_ptr_ = r.mem_ptr_) (t : List PtrDetails) (a b : Addr) :
    lookup (updateAt f (FindPtrInfo t a) t) b =
      if b = a then (lookup t a).map f else lookup t b := by
  induction t with
  | nil => by_cases h : b = a <;> simp [updateAt, FindPtrInfo, lookup_nil, h]
  | cons r rs ih =>
    rw [updateAt_find_cons]
    by_cases h : r.mem_ptr_ = a
    · subst h
      by_cases hb : b = r.mem_ptr_
      · subst hb
        simp [lookup_cons, hf]
      · have hb1 : ¬ r.mem_ptr_ = b := fun e => hb e.symm
        simp [lookup_cons, hf, hb, hb1]
    · simp only [h, if_false, lookup_cons, ih]
      by_cases hb : b = a
      · subst hb
        simp [h]
      · simp [hb]

theorem refCountOf_updateAt_find (f : PtrDetails → PtrDetails)
    (hf : ∀ r, (f r).mem_ptr_ = r.mem_ptr_) (t : List PtrDetails) (a b : Addr) :
    refCountOf (updateAt f (FindPtrInfo t a) t) b =
      if b = a then ((lookup t a).map fun r => (f r).ref_count_).getD 0 else refCountOf t b := by
  unfold refCountOf
  rw [lookup_updateAt_find f hf]
  by_cases hb : b = a
  · subst hb
    cases lookup t b <;> simp
  · simp [hb]

theorem mem_updateAt {f : PtrDetails → PtrDetails} {p : Nat} {t : List PtrDetails}
    {r : PtrDetails} (h : r ∈ updateAt f p t) : r ∈ t ∨ ∃ r0 ∈ t, t[p]? = some r0 ∧ r = f r0 := by
  induction t generalizing p with
  | nil => simp [updateAt] at h
  | cons x xs ih =>
    cases p with
    | zero =>
      simp only [updateAt, List.mem_cons] at h
      rcases h with rfl | h
      · exact Or.inr ⟨x, List.mem_cons_self _ _, by simp, rfl⟩
      · exact Or.inl (List.mem_cons_of_mem _ h)
    | succ n =>
      simp only [updateAt, List.mem_cons] at h
      rcases h with rfl | h
      · exact Or.inl (List.mem_cons_self _ _)
      · rcases ih h with h1 | ⟨r0, h0, hg, he⟩
        · exact Or.inl (List.mem_cons_of_mem _ h1)
        · exact Or.inr ⟨r0, List.mem_cons_of_mem _ h0, by simpa using hg, he⟩

/-! ## The collection pass -/

theorem remove_if_eq (t : List PtrDetails) (deleted : Bool) (released : List Release) :
    remove_if t deleted released =
      (t.filter fun r => decide (r.ref_count_ ≠ 0),
        deleted || t.any fun r => decide (r.ref_count_ = 0),
        released ++ (t.filter fun r => decide (r.ref_count_ = 0)).map releaseOf) := by
  induction t generalizing deleted released with
  | nil => simp [remove_if]
  | cons r rs ih =>
    by_cases h : r.ref_count_ = 0
    · simp [remove_if, Collect.predicate, h, ih, releaseOf]
    · simp [remove_if, Collect.predicate, h, ih]

theorem Collect_ref_container (g : Gc) :
    (Collect g).1.ref_container_ = g.ref_container_.filter fun r => decide (r.ref_count_ ≠ 0) := by
  simp [Collect, remove_if_eq]

theorem Collect_released (g : Gc) :
    (Collect g).1.released =
      g.released ++ (g.ref_container_.filter fun r => decide (r.ref_count_ = 0)).map releaseOf := by
  simp [Collect, remove_if_eq]

theorem Collect_first (g : Gc) : (Collect g).1.first_ = g.first_ ∧ (Collect g).1.atexit_ = g.atexit_ := by
  simp [Collect, remove_if_eq]

theorem Collect_of_NoZero {g : Gc} (h : NoZero g.ref_container_) : (Collect g).1 = g := by
  have h1 : (g.ref_container_.filter fun r => decide (r.ref_count_ ≠ 0)) = g.ref_container_ := by
    rw [List.filter_eq_self]
    intro r hr
    have := h r hr
    simp only [decide_eq_true_eq]
    omega
  have h2 : (g.ref_container_.filter fun r => decide (r.ref_count_ = 0)) = [] := by
    rw [List.filter_eq_nil_iff]
    intro r hr
    have := h r hr
    simp only [decide_eq_true_eq]
    omega
  cases g
  simp only [Collect, remove_if_eq]
  simp only at h1 h2
  rw [h1, h2]
  simp

/-- C8: `Collect` keeps exactly the records with a non-zero reference count, unchanged and in
their order; makes one release per removed record, `delete[]` iff the record's `is_array_` is
set, and nothing else; and returns true iff some record had reference count zero. -/
theorem Collect_spec (g : Gc) :
    (Collect g).1.ref_container_ = (g.ref_container_.filter fun r => decide (r.ref_count_ ≠ 0)) ∧
    (Collect g).1.released =
      g.released ++
        (g.ref_container_.filter fun r => decide (r.ref_count_ = 0)).map
          (fun r => (r.mem_ptr_, r.is_array_)) ∧
    ((Collect g).2 = true ↔ ∃ r ∈ g.ref_container_, r.ref_count_ = 0) ∧
    (Collect g).1.first_ = g.first_ ∧ (Collect g).1.atexit_ = g.atexit_ := by
  refine ⟨Collect_ref_container g, Collect_released g, ?_, Collect_first g⟩
  simp [Collect, remove_if_eq]

/-! ## More on lookup and update -/

theorem FindPtrInfo_congr {t t1 : List PtrDetails} (h : addrs t = addrs t1) (a : Addr) :
    FindPtrInfo t a = FindPtrInfo t1 a := by
  induction t generalizing t1 with
  | nil =>
    cases t1 with
    | nil => rfl
    | cons y ys => simp [addrs] at h
  | cons x xs ih =>
    cases t1 with
    | nil => simp [addrs] at h
    | cons y ys =>
      simp only [addrs_cons, List.cons.injEq] at h
      simp only [FindPtrInfo, h.1, ih h.2]

theorem FindPtrInfo_updateAt (f : PtrDetails → PtrDetails)
    (hf : ∀ r, (f r).mem_ptr_ = r.mem_ptr_) (p : Nat) (t : List PtrDetails) (a : Addr) :
    FindPtrInfo (updateAt f p t) a = FindPtrInfo t a :=
  FindPtrInfo_congr (addrs_updateAt f hf p t) a

theorem updateAt_getElem? (f : PtrDetails → PtrDetails) (p i : Nat) (t : List PtrDetails) :
    (updateAt f p t)[i]? = if i = p then t[p]?.map f else t[i]? := by
  induction t generalizing p i with
  | nil => by_cases h : i = p <;> simp [updateAt, h]
  | cons x xs ih =>
    cases p with
    | zero =>
      cases i with
      | zero => simp [updateAt]
      | succ j => simp [updateAt]
    | succ q =>
      cases i with
      | zero => simp [updateAt]
      | succ j => simp [updateAt, ih]

theorem updateAt_updateAt (f k : PtrDetails → PtrDetails) (p : Nat) (t : List PtrDetails) :
    updateAt f p (updateAt k p t) = updateAt (fun r => f (k r)) p t := by
  induction t generalizing p with
  | nil => simp [updateAt]
  | cons x xs ih => cases p <;> simp [updateAt, ih]

theorem updateAt_eq_self (f : PtrDetails → PtrDetails) (p : Nat) (t : List PtrDetails)
    (h : ∀ r, t[p]? = some r → f r = r) : updateAt f p t = t := by
  induction t generalizing p with
  | nil => simp [updateAt]
  | cons x xs ih =>
    cases p with
    | zero => simp [updateAt, h x (by simp)]
    | succ q =>
      simp only [updateAt, List.cons.injEq, true_and]
      exact ih q (fun r hr => h r (by simpa using hr))

theorem lookup_isSome_iff (t : List PtrDetails) (a : Addr) :
    FindPtrInfo t a ≠ t.length ↔ ∃ r, lookup t a = some r := by
  rw [Ne, FindPtrInfo_eq_length, ← lookup_eq_none]
  cases lookup t a <;> simp

theorem NoZero_cons {r : PtrDetails} {rs : List PtrDetails} :
    NoZero (r :: rs) ↔ 1 ≤ r.ref_count_ ∧ NoZero rs := by
  simp [NoZero]

theorem filter_nonzero_of_NoZero {t : List PtrDetails} (h : NoZero t) :
    (t.filter fun r => decide (r.ref_count_ ≠ 0)) = t := by
  rw [List.filter_eq_self]
  intro r hr
  have := h r hr
  simp only [decide_eq_true_eq]
  omega

theorem filter_zero_of_NoZero {t : List PtrDetails} (h : NoZero t) :
    (t.filter fun r => decide (r.ref_count_ = 0)) = [] := by
  rw [List.filter_eq_nil_iff]
  intro r hr
  have := h r hr
  simp only [decide_eq_true_eq]
  omega

/-! ## Shutdown -/

theorem Shutdown_ref_container (g : Gc) : (Shutdown g).ref_container_ = [] := by
  unfold Shutdown RefContainerSize
  by_cases h : g.ref_container_.length = 0
  · simp only [h, if_true]
    exact List.length_eq_zero.mp h
  · simp only [h, if_false, Collect_ref_container]
    rw [List.filter_eq_nil_iff]
    intro r hr
    simp only [List.mem_map] at hr
    obtain ⟨r0, _, rfl⟩ := hr
    simp

theorem Shutdown_released (g : Gc) :
    (Shutdown g).released = g.released ++ g.ref_container_.map releaseOf := by
  unfold Shutdown RefContainerSize
  by_cases h : g.ref_container_.length = 0
  · simp only [h, if_true]
    simp [List.length_eq_zero.mp h]
  · simp only [h, if_false, Collect_released]
    congr 1
    have : ((g.ref_container_.map fun r => { r with ref_count_ := 0 }).filter
        fun r => decide (r.ref_count_ = 0)) =
        g.ref_container_.map fun r => { r with ref_count_ := 0 } := by
      rw [List.filter_eq_self]
      intro r hr
      simp only [List.mem_map] at hr
      obtain ⟨r0, _, rfl⟩ := hr
      simp
    rw [this, List.map_map]
    rfl

/-- C9: on a table whose records have distinct addresses, whatever their reference counts,
`Shutdown` leaves the table empty and releases the address of each record exactly once and no
other address; on an empty table it changes nothing. -/
theorem Shutdown_spec (g : Gc) (hn : (addrs g.ref_container_).Nodup) :
    (Shutdown g).ref_container_ = [] ∧ RefContainerSize (Shutdown g) = 0 ∧
    (∃ delta, (Shutdown g).released = g.released ++ delta ∧
      delta = g.ref_container_.map (fun r => (r.mem_ptr_, r.is_array_)) ∧
      delta.length = RefContainerSize g ∧
      ∀ a, (delta.map Prod.fst).count a = if a ∈ addrs g.ref_container_ then 1 else 0) ∧
    (g.ref_container_ = [] → Shutdown g = g) := by
  refine ⟨Shutdown_ref_container g, ?_, ?_, ?_⟩
  · simp [RefContainerSize, Shutdown_ref_container]
  · refine ⟨_, Shutdown_released g, rfl, by simp [RefContainerSize], ?_⟩
    intro a
    have h1 : (g.ref_container_.map releaseOf).map Prod.fst = addrs g.ref_container_ := by
      simp [addrs, releaseOf, List.map_map, Function.comp_def]
    rw [h1]
    by_cases ha : a ∈ addrs g.ref_container_
    · simp only [ha, if_true]
      exact List.count_eq_one_of_mem hn ha
    · simp only [ha, if_false]
      exact List.count_eq_zero_of_not_mem ha
  · intro h
    simp [Shutdown, RefContainerSize, h]

/-- Witness for C9: three records, one of them with reference count zero, one an array. -/
theorem Shutdown_spec_witness :
    (Shutdown { ref_container_ := [⟨2, 10, false, 0⟩, ⟨0, 20, true, 4⟩, ⟨7, 30, false, 0⟩],
                first_ := false, atexit_ := 1, released := [] }).released =
      [(10, false), (20, true), (30, false)] := by
  have h := Shutdown_spec
    { ref_container_ := [⟨2, 10, false, 0⟩, ⟨0, 20, true, 4⟩, ⟨7, 30, false, 0⟩],
      first_ := false, atexit_ := 1, released := [] } (by decide)
  obtain ⟨delta, h1, h2, _⟩ := h.2.2.1
  rw [h1, h2]
  rfl

/-! ## Construction from a raw pointer -/

/-- C3: when no record has address `a`, `Pointer(a)` puts one new record in front of the table,
with address `a` and reference count 1, and leaves the other records as they were; the table
grows by one, the new object points to `a`, and nothing is released. -/
theorem ctor_fresh (size : Int) (g : Gc) (a : Addr) (h : a ∉ addrs g.ref_container_) :
    ∃ r, (Pointer.ctor size a g).1.ref_container_ = r :: g.ref_container_ ∧
      r.mem_ptr_ = a ∧ r.ref_count_ = 1 ∧
      RefContainerSize (Pointer.ctor size a g).1 = RefContainerSize g + 1 ∧
      (Pointer.ctor size a g).2.addr_ = a ∧
      (Pointer.ctor size a g).1.released = g.released := by
  have hf := (FindPtrInfo_eq_length g.ref_container_ a).mpr h
  refine ⟨PtrDetails.ctor a (toInt (toUnsigned size)), ?_⟩
  simp [Pointer.ctor, hf, RefContainerSize, PtrDetails.ctor]

/-- Witness for C3: address 30 is new to a table that holds 10 and 20. -/
theorem ctor_fresh_witness :
    (Pointer.ctor 0 30
      { ref_container_ := [⟨2, 10, false, 0⟩, ⟨1, 20, false, 0⟩],
        first_ := false, atexit_ := 1, released := [] }).1.ref_container_.length = 3 := by
  obtain ⟨r, h, _⟩ := ctor_fresh 0
    { ref_container_ := [⟨2, 10, false, 0⟩, ⟨1, 20, false, 0⟩],
      first_ := false, atexit_ := 1, released := [] } 30 (by decide)
  rw [h]
  rfl

/-! ## Assignment of the current address -/

theorem set_handle_self {hs : List (Option Pointer)} {h : Nat} {p : Pointer}
    (hp : hs.getD h none = some p) : hs.set h (some p) = hs := by
  induction hs generalizing h with
  | nil => simp
  | cons x xs ih =>
    cases h with
    | zero =>
      simp only [List.getD_cons_zero] at hp
      simp [hp]
    | succ n =>
      simp only [List.getD_cons_succ] at hp
      simp [ih hp]

theorem assign_same_addr_aux (size : Int) (g : Gc) (this : Pointer) :
    (Pointer.assign_raw size this this.addr_ g = some (g, this, this.addr_) ∧
      ∀ other : Pointer, other.addr_ = this.addr_ → Pointer.assign this other g = some (g, this)) ∧
    ∀ (w : World) (i : Nat), w.handle i = some this →
      step size w (.assign_raw i this.addr_) = .ok w ∧
      ∀ (j : Nat) (other : Pointer), w.handle j = some other → other.addr_ = this.addr_ →
        step size w (.assign i j) = .ok w := by
  refine ⟨⟨by simp [Pointer.assign_raw], fun other h => by simp [Pointer.assign, h]⟩, ?_⟩
  intro w i hi
  have hs : w.handles.set i (some this) = w.handles := set_handle_self hi
  refine ⟨by simp [step, hi, Pointer.assign_raw, hs], ?_⟩
  intro j other hj h
  simp [step, hi, hj, Pointer.assign, h, hs]

/-- C7: assigning to a `Pointer` the address it already holds, as a raw pointer or through
another `Pointer` with that address (the `Pointer` itself included), returns at once: static
state, release trace and the `Pointer` are unchanged, whatever the table holds; as a call of a
program it leaves the whole program state unchanged. -/
theorem assign_same_addr (size : Int) (g : Gc) (this other : Pointer)
    (h : other.addr_ = this.addr_) :
    Pointer.assign_raw size this this.addr_ g = some (g, this, this.addr_) ∧
    Pointer.assign this other g = some (g, this) ∧
    Pointer.assign this this g = some (g, this) ∧
    ∀ (w : World) (i j : Nat), w.handle i = some this → w.handle j = some other →
      step size w (.assign_raw i this.addr_) = .ok w ∧ step size w (.assign i j) = .ok w ∧
      step size w (.assign i i) = .ok w := by
  obtain ⟨⟨h1, h2⟩, h3⟩ := assign_same_addr_aux size g this
  refine ⟨h1, h2 other h, h2 this rfl, ?_⟩
  intro w i j hi hj
  obtain ⟨h4, h5⟩ := ((assign_same_addr_aux size w.gc this).2 w i hi)
  exact ⟨h4, h5 j other hj h, h5 i this hi rfl⟩

/-- Witness for C7: a table without any record for the address of the two objects. -/
theorem assign_same_addr_witness :
    Pointer.assign ⟨10, false, 0⟩ ⟨10, false, 0⟩ Gc.init = some (Gc.init, ⟨10, false, 0⟩) :=
  (assign_same_addr 0 Gc.init ⟨10, false, 0⟩ ⟨10, false, 0⟩ rfl).2.1

/-! ## Destruction of the last object for an address -/

theorem decr_ref_count_one {r : PtrDetails} (h : r.ref_count_ = 1) : r.decr.ref_count_ = 0 := by
  rw [decr_ref_count, h]
  have := toUnsigned_pred 1 (le_refl 1) (by rw [UINT_MOD_eq]; omega)
  simpa using this

theorem decr_last_filter {t : List PtrDetails} {a : Addr} {r : PtrDetails} (hz : NoZero t)
    (hl : lookup t a = some r) (hc : r.ref_count_ = 1) :
    ((updateAt PtrDetails.decr (FindPtrInfo t a) t).filter fun x => decide (x.ref_count_ ≠ 0)) =
      t.erase r ∧
    ((updateAt PtrDetails.decr (FindPtrInfo t a) t).filter fun x => decide (x.ref_count_ = 0)) =
      [r.decr] := by
  induction t with
  | nil => simp [lookup_nil] at hl
  | cons x xs ih =>
    rw [NoZero_cons] at hz
    rw [lookup_cons] at hl
    rw [updateAt_find_cons]
    by_cases hx : x.mem_ptr_ = a
    · simp only [hx, if_true, Option.some.injEq] at hl
      subst hl
      have h0 := decr_ref_count_one hc
      have e1 : decide (x.decr.ref_count_ ≠ 0) = false := by simp [h0]
      have e2 : decide (x.decr.ref_count_ = 0) = true := by simp [h0]
      simp only [hx, if_true, List.filter_cons, e1, e2, Bool.false_eq_true, if_false,
        filter_nonzero_of_NoZero hz.2, filter_zero_of_NoZero hz.2, List.erase_cons_head,
        and_self]
    · simp only [hx, if_false] at hl
      have hne : x ≠ r := by
        rintro rfl
        exact hx (lookup_some_mem hl).2
      have e1 : decide (x.ref_count_ ≠ 0) = true := by
        simp only [decide_eq_true_eq]
        omega
      have e2 : decide (x.ref_count_ = 0) = false := by
        simp only [decide_eq_false_iff_not]
        omega
      have hb : (x == r) = false := by simpa using hne
      have := ih hz.2 hl
      simp only [hx, if_false, List.filter_cons, e1, e2, if_true, Bool.false_eq_true, this.1,
        this.2, List.erase_cons, hb, cond_false, and_self]

theorem not_mem_addrs_erase {t : List PtrDetails} {r : PtrDetails} (hn : (addrs t).Nodup)
    (hr : r ∈ t) : r.mem_ptr_ ∉ addrs (t.erase r) := by
  induction t with
  | nil => simp at hr
  | cons x xs ih =>
    simp only [addrs_cons, List.nodup_cons] at hn
    by_cases hx : x = r
    · subst hx
      simpa using hn.1
    · have hr1 : r ∈ xs := by
        rcases List.mem_cons.mp hr with e | e
        · exact absurd e.symm hx
        · exact e
      have hxa : r.mem_ptr_ ≠ x.mem_ptr_ := by
        intro e
        exact hn.1 (mem_addrs.mpr ⟨r, hr1, e⟩)
      rw [List.erase_cons_tail (by simpa using hx)]
      simp only [addrs_cons, List.mem_cons, not_or]
      exact ⟨hxa, ih hn.2 hr1⟩

/-- C5: in a table with distinct addresses and all reference counts at least 1, destroying a
`Pointer` whose record `r` has reference count 1 succeeds, removes exactly `r` (the other
records stay, in order), makes exactly one release, of that address, and leaves no record with
that address; the table shrinks by one. -/
theorem dtor_last (g : Gc) (this : Pointer) (r : PtrDetails)
    (hn : (addrs g.ref_container_).Nodup) (hz : NoZero g.ref_container_)
    (hl : lookup g.ref_container_ this.addr_ = some r) (hc : r.ref_count_ = 1) :
    ∃ g1, Pointer.dtor this g = some g1 ∧
      g1.ref_container_ = g.ref_container_.erase r ∧
      this.addr_ ∉ addrs g1.ref_container_ ∧
      RefContainerSize g1 + 1 = RefContainerSize g ∧
      g1.released = g.released ++ [(this.addr_, r.is_array_)] ∧
      (∀ x ∈ g.ref_container_, x ≠ r → x ∈ g1.ref_container_) ∧
      g1.first_ = g.first_ ∧ g1.atexit_ = g.atexit_ := by
  have hfound : FindPtrInfo g.ref_container_ this.addr_ ≠ g.ref_container_.length :=
    (lookup_isSome_iff _ _).mpr ⟨r, hl⟩
  have hmem := lookup_some_mem hl
  have hf := decr_last_filter hz hl hc
  refine ⟨(Collect
      { g with
        ref_container_ :=
          updateAt PtrDetails.decr (FindPtrInfo g.ref_container_ this.addr_) g.ref_container_ }).1,
    by simp only [Pointer.dtor, hfound, if_false], ?_, ?_, ?_, ?_, ?_, ?_, ?_⟩
  · rw [Collect_ref_container]
    exact hf.1
  · rw [Collect_ref_container]
    simp only
    rw [hf.1, ← hmem.2]
    exact not_mem_addrs_erase hn hmem.1
  · simp only [RefContainerSize, Collect_ref_container]
    rw [hf.1, List.length_erase_of_mem hmem.1]
    have : 0 < g.ref_container_.length := List.length_pos_of_mem hmem.1
    omega
  · rw [Collect_released]
    simp only
    rw [hf.2]
    simp [releaseOf, decr_mem_ptr, hmem.2, PtrDetails.decr]
  · intro x hx hne
    rw [Collect_ref_container]
    simp only
    rw [hf.1]
    exact (List.mem_erase_of_ne hne).mpr hx
  · exact (Collect_first _).1
  · exact (Collect_first _).2

/-- Witness for C5: destroying the only `Pointer` to address 20. -/
theorem dtor_last_witness :
    Pointer.dtor ⟨20, false, 0⟩
      { ref_container_ := [⟨2, 10, false, 0⟩, ⟨1, 20, false, 0⟩, ⟨3, 30, false, 0⟩],
        first_ := false, atexit_ := 1, released := [] } =
    some { ref_container_ := [⟨2, 10, false, 0⟩, ⟨3, 30, false, 0⟩],
           first_ := false, atexit_ := 1, released := [(20, false)] } := by
  obtain ⟨g1, h1, h2, _, _, h3, _, h4, h5⟩ := dtor_last
    { ref_container_ := [⟨2, 10, false, 0⟩, ⟨1, 20, false, 0⟩, ⟨3, 30, false, 0⟩],
      first_ := false, atexit_ := 1, released := [] } ⟨20, false, 0⟩ ⟨1, 20, false, 0⟩
    (by decide) (by decide) (by decide) rfl
  rw [h1]
  cases g1
  simp only at h2 h3 h4 h5
  subst h2 h3 h4 h5
  decide

/-! ## Copy construction followed by destruction -/

theorem incr_eq_of_lt {r : PtrDetails} (h : r.ref_count_ + 1 < UINT_MOD) :
    r.incr = { r with ref_count_ := r.ref_count_ + 1 } := by
  cases r
  simp only [PtrDetails.incr] at *
  rw [toUnsigned_succ _ h]

theorem decr_incr_of_lt {r : PtrDetails} (h : r.ref_count_ + 1 < UINT_MOD) : r.incr.decr = r := by
  rw [incr_eq_of_lt h]
  cases r
  simp only [PtrDetails.decr] at *
  rw [toUnsigned_pred _ (by omega) h]
  simp

/-- C4, with every reference count of the table at least 1 and the count of the record below
`2 ^ 32 - 1`: copy-constructing from a `Pointer` whose address has the record `r` raises the
count of that record by one, leaves the number of records, every other position of the table and
the release trace unchanged; destroying one of the two copies afterwards gives back exactly the
state before the copy: the count is restored, no record is removed and nothing is released. -/
theorem copy_then_dtor (g : Gc) (h : Pointer) (r : PtrDetails) (hz : NoZero g.ref_container_)
    (hl : lookup g.ref_container_ h.addr_ = some r) (hc : r.ref_count_ + 1 < UINT_MOD) :
    ∃ g1, Pointer.copy_ctor h g = some (g1, h) ∧
      lookup g1.ref_container_ h.addr_ = some { r with ref_count_ := r.ref_count_ + 1 } ∧
      RefContainerSize g1 = RefContainerSize g ∧
      (∀ i, i ≠ FindPtrInfo g.ref_container_ h.addr_ →
        g1.ref_container_[i]? = g.ref_container_[i]?) ∧
      g1.released = g.released ∧
      Pointer.dtor h g1 = some g := by
  have hfound : FindPtrInfo g.ref_container_ h.addr_ ≠ g.ref_container_.length :=
    (lookup_isSome_iff _ _).mpr ⟨r, hl⟩
  refine ⟨{ g with
            ref_container_ :=
              updateAt PtrDetails.incr (FindPtrInfo g.ref_container_ h.addr_) g.ref_container_ },
    ?_, ?_, ?_, ?_, rfl, ?_⟩
  · simp only [Pointer.copy_ctor, hfound, if_false]
  · simp only
    rw [lookup_updateAt_find _ incr_mem_ptr, if_pos rfl, hl, Option.map_some', incr_eq_of_lt hc]
  · simp only [RefContainerSize, updateAt_length]
  · intro i hi
    simp only
    rw [updateAt_getElem?, if_neg hi]
  · have h1 : FindPtrInfo (updateAt PtrDetails.incr (FindPtrInfo g.ref_container_ h.addr_)
        g.ref_container_) h.addr_ = FindPtrInfo g.ref_container_ h.addr_ :=
      FindPtrInfo_updateAt _ incr_mem_ptr _ _ _
    have h2 : updateAt PtrDetails.decr (FindPtrInfo g.ref_container_ h.addr_)
        (updateAt PtrDetails.incr (FindPtrInfo g.ref_container_ h.addr_) g.ref_container_) =
        g.ref_container_ := by
      rw [updateAt_updateAt]
      apply updateAt_eq_self
      intro x hx
      have : x = r := by
        have := hl
        simp only [lookup] at this
        rw [hx] at this
        exact Option.some.inj this
      subst this
      exact decr_incr_of_lt hc
    simp only [Pointer.dtor, h1, updateAt_length, hfound, if_false, h2]
    have h3 : ({ g with ref_container_ := g.ref_container_ } : Gc) = g := by cases g; rfl
    rw [h3, Collect_of_NoZero hz]

/-- Witness for C4: a second `Pointer` to address 10 comes and goes. -/
theorem copy_then_dtor_witness :
    ∃ g1, Pointer.copy_ctor ⟨10, false, 0⟩
        { ref_container_ := [⟨1, 20, false, 0⟩, ⟨1, 10, false, 0⟩],
          first_ := false, atexit_ := 1, released := [] } = some (g1, ⟨10, false, 0⟩) ∧
      lookup g1.ref_container_ 10 = some ⟨2, 10, false, 0⟩ ∧
      Pointer.dtor ⟨10, false, 0⟩ g1 =
        some { ref_container_ := [⟨1, 20, false, 0⟩, ⟨1, 10, false, 0⟩],
               first_ := false, atexit_ := 1, released := [] } := by
  obtain ⟨g1, h1, h2, _, _, _, h3⟩ := copy_then_dtor
    { ref_container_ := [⟨1, 20, false, 0⟩, ⟨1, 10, false, 0⟩],
      first_ := false, atexit_ := 1, released := [] } ⟨10, false, 0⟩ ⟨1, 10, false, 0⟩
    (by decide) (by decide) (by rw [UINT_MOD_eq]; decide)
  exact ⟨g1, h1, h2, h3⟩

/-- C4 fails as stated for two kinds of table. First, a table in which the record of address 10
has count 1 and another record has count 0: after the copy, destroying one of the copies runs
`Collect`, which removes the record of address 20 and releases that address. Second, a table in
which the record of address 10 has count `2 ^ 32 - 1`: the copy wraps the count to `0`. -/
theorem copy_then_dtor_counterexample :
    (Pointer.copy_ctor ⟨10, false, 0⟩
        { ref_container_ := [⟨1, 10, false, 0⟩, ⟨0, 20, false, 0⟩],
          first_ := false, atexit_ := 1, released := [] } =
      some ({ ref_container_ := [⟨2, 10, false, 0⟩, ⟨0, 20, false, 0⟩],
              first_ := false, atexit_ := 1, released := [] }, ⟨10, false, 0⟩) ∧
     Pointer.dtor ⟨10, false, 0⟩
        { ref_container_ := [⟨2, 10, false, 0⟩, ⟨0, 20, false, 0⟩],
          first_ := false, atexit_ := 1, released := [] } =
      some { ref_container_ := [⟨1, 10, false, 0⟩],
             first_ := false, atexit_ := 1, released := [(20, false)] }) ∧
    Pointer.copy_ctor ⟨10, false, 0⟩
        { ref_container_ := [⟨4294967295, 10, false, 0⟩],
          first_ := false, atexit_ := 1, released := [] } =
      some ({ ref_container_ := [⟨0, 10, false, 0⟩],
              first_ := false, atexit_ := 1, released := [] }, ⟨10, false, 0⟩) := by
  refine ⟨⟨?_, ?_⟩, ?_⟩ <;> decide

/-! ## Distinct addresses -/

theorem nodup_updateAt {f : PtrDetails → PtrDetails} (hf : ∀ r, (f r).mem_ptr_ = r.mem_ptr_)
    (p : Nat) {t : List PtrDetails} (h : (addrs t).Nodup) : (addrs (updateAt f p t)).Nodup := by
  rw [addrs_updateAt f hf]
  exact h

theorem nodup_filter (q : PtrDetails → Bool) {t : List PtrDetails} (h : (addrs t).Nodup) :
    (addrs (t.filter q)).Nodup :=
  h.sublist (List.Sublist.map _ (List.filter_sublist t))

theorem nodup_register {t : List PtrDetails} (h : (addrs t).Nodup) (a : Addr) (sz : Int) :
    (addrs (if FindPtrInfo t a = t.length then PtrDetails.ctor a sz :: t
      else updateAt PtrDetails.incr (FindPtrInfo t a) t)).Nodup := by
  by_cases hf : FindPtrInfo t a = t.length
  · simp only [hf, if_true, addrs_cons, List.nodup_cons]
    exact ⟨(FindPtrInfo_eq_length t a).mp hf, h⟩
  · simp only [hf, if_false]
    exact nodup_updateAt incr_mem_ptr _ h

theorem nodup_Collect {g : Gc} (h : (addrs g.ref_container_).Nodup) :
    (addrs (Collect g).1.ref_container_).Nodup := by
  rw [Collect_ref_container]
  exact nodup_filter _ h

theorem nodup_decr_Collect {g : Gc} (h : (addrs g.ref_container_).Nodup) (p : Nat) :
    (addrs (Collect
      { g with ref_container_ := updateAt PtrDetails.decr p g.ref_container_ }).1.ref_container_).Nodup :=
  nodup_Collect (nodup_updateAt decr_mem_ptr p h)

theorem nodup_ctor (size : Int) (a : Addr) {g : Gc} (h : (addrs g.ref_container_).Nodup) :
    (addrs (Pointer.ctor size a g).1.ref_container_).Nodup := by
  have := nodup_register h a (toInt (toUnsigned size))
  by_cases hf : FindPtrInfo g.ref_container_ a = g.ref_container_.length
  · simp only [hf, if_true] at this
    simpa [Pointer.ctor, hf] using this
  · simp only [hf, if_false] at this
    simpa [Pointer.ctor, hf] using this

theorem nodup_copy_ctor {p q : Pointer} {g g1 : Gc} (h : (addrs g.ref_container_).Nodup)
    (hs : Pointer.copy_ctor p g = some (g1, q)) : (addrs g1.ref_container_).Nodup := by
  unfold Pointer.copy_ctor at hs
  by_cases hf : FindPtrInfo g.ref_container_ p.addr_ = g.ref_container_.length
  · simp [hf] at hs
  · simp only [hf, if_false, Option.some.injEq, Prod.mk.injEq] at hs
    rw [← hs.1]
    exact nodup_updateAt incr_mem_ptr _ h

theorem nodup_dtor {p : Pointer} {g g1 : Gc} (h : (addrs g.ref_container_).Nodup)
    (hs : Pointer.dtor p g = some g1) : (addrs g1.ref_container_).Nodup := by
  unfold Pointer.dtor at hs
  by_cases hf : FindPtrInfo g.ref_container_ p.addr_ = g.ref_container_.length
  · simp [hf] at hs
  · simp only [hf, if_false, Option.some.injEq] at hs
    rw [← hs]
    exact nodup_decr_Collect h _

theorem nodup_assign_raw {size : Int} {p q : Pointer} {a b : Addr} {g g1 : Gc}
    (h : (addrs g.ref_container_).Nodup)
    (hs : Pointer.assign_raw size p a g = some (g1, q, b)) : (addrs g1.ref_container_).Nodup := by
  unfold Pointer.assign_raw at hs
  by_cases he : p.addr_ = a
  · simp only [he, if_true, Option.some.injEq, Prod.mk.injEq] at hs
    rw [← hs.1]
    exact h
  · by_cases hf : FindPtrInfo g.ref_container_ p.addr_ = g.ref_container_.length
    · simp [he, hf] at hs
    · have h1 := nodup_decr_Collect h (FindPtrInfo g.ref_container_ p.addr_)
      have h2 := nodup_register h1 a size
      simp only [he, hf, if_false] at hs
      split at hs
      · rename_i hc
        simp only [Option.some.injEq, Prod.mk.injEq] at hs
        rw [← hs.1]
        simpa [hc] using h2
      · rename_i hc
        simp only [Option.some.injEq, Prod.mk.injEq] at hs
        rw [← hs.1]
        simpa [hc] using h2

theorem nodup_assign {p r q : Pointer} {g g1 : Gc} (h : (addrs g.ref_container_).Nodup)
    (hs : Pointer.assign p r g = some (g1, q)) : (addrs g1.ref_container_).Nodup := by
  unfold Pointer.assign at hs
  by_cases he : p.addr_ = r.addr_
  · simp only [he, if_true, Option.some.injEq, Prod.mk.injEq] at hs
    rw [← hs.1]
    exact h
  · by_cases hf : FindPtrInfo g.ref_container_ p.addr_ = g.ref_container_.length
    · simp [he, hf] at hs
    · have h1 := nodup_decr_Collect h (FindPtrInfo g.ref_container_ p.addr_)
      simp only [he, hf, if_false] at hs
      split at hs
      · simp at hs
      · simp only [Option.some.injEq, Prod.mk.injEq] at hs
        rw [← hs.1]
        exact nodup_updateAt incr_mem_ptr _ h1

theorem nodup_Shutdown (g : Gc) : (addrs (Shutdown g).ref_container_).Nodup := by
  rw [Shutdown_ref_container]
  exact List.nodup_nil

theorem nodup_step {size : Int} {w w1 : World} {op : Op}
    (h : (addrs w.gc.ref_container_).Nodup) (hs : step size w op = .ok w1) :
    (addrs w1.gc.ref_container_).Nodup := by
  cases op with
  | construct a =>
    simp only [step, Outcome.ok.injEq] at hs
    rw [← hs]
    exact nodup_ctor size a h
  | copy src =>
    simp only [step] at hs
    split at hs
    · simp at hs
    · split at hs
      · simp at hs
      · rename_i hc
        simp only [Outcome.ok.injEq] at hs
        rw [← hs]
        exact nodup_copy_ctor h hc
  | destruct i =>
    simp only [step] at hs
    split at hs
    · simp at hs
    · split at hs
      · simp at hs
      · rename_i hc
        simp only [Outcome.ok.injEq] at hs
        rw [← hs]
        exact nodup_dtor h hc
  | assign_raw i a =>
    simp only [step] at hs
    split at hs
    · simp at hs
    · split at hs
      · simp at hs
      · rename_i hc
        simp only [Outcome.ok.injEq] at hs
        rw [← hs]
        exact nodup_assign_raw h hc
  | assign i j =>
    simp only [step] at hs
    split at hs
    · split at hs
      · simp at hs
      · rename_i hc
        simp only [Outcome.ok.injEq] at hs
        rw [← hs]
        exact nodup_assign h hc
    · simp at hs
  | collect =>
    simp only [step, Outcome.ok.injEq] at hs
    rw [← hs]
    exact nodup_Collect h
  | shutdown =>
    simp only [step, Outcome.ok.injEq] at hs
    rw [← hs]
    exact nodup_Shutdown _

theorem Reach_mono {size : Int} {allowed allowed1 : Op → Prop} {within within1 : World → Prop}
    (ha : ∀ op, allowed op → allowed1 op) (hw : ∀ w, within w → within1 w) {w : World}
    (h : Reach size allowed within w) : Reach size allowed1 within1 w := by
  induction h with
  | init => exact Reach.init
  | next op _ hop hs hin ih => exact Reach.next op ih (ha op hop) hs (hw _ hin)

theorem Reach_run {size : Int} {allowed : Op → Prop} (ops : List Op) {w w1 : World}
    (h : Reach size allowed (fun _ => True) w) (ha : ∀ op ∈ ops, allowed op)
    (hr : run size ops w = .ok w1) : Reach size allowed (fun _ => True) w1 := by
  induction ops generalizing w with
  | nil =>
    simp only [run, Outcome.ok.injEq] at hr
    rw [← hr]
    exact h
  | cons op ops ih =>
    simp only [run] at hr
    split at hr
    · rename_i w2 hs
      exact ih (Reach.next op h (ha op (List.mem_cons_self _ _)) hs trivial)
        (fun o ho => ha o (List.mem_cons_of_mem _ ho)) hr
    · rename_i hne
      cases hs : step size w op with
      | ok w2 => exact absurd hs (hne w2)
      | not_live => rw [hs] at hr; simp at hr
      | broken_invariant => rw [hs] at hr; simp at hr

/-- C2: in every state reached from program start by constructions, copies, destructions,
assignments, `Collect` and `Shutdown` calls, no two records of the table have the same
address. -/
theorem unique_addresses (size : Int) (w : World) (h : ReachableAny size w) :
    (addrs w.gc.ref_container_).Nodup := by
  induction h with
  | init => exact List.nodup_nil
  | next op _ _ hs _ ih => exact nodup_step ih hs

/-- Witness for C2: the state after `Pointer a(10); Pointer b(20); Pointer c(10);`. -/
theorem unique_addresses_witness :
    (addrs [⟨1, 20, false, 0⟩, ⟨2, 10, false, 0⟩]).Nodup :=
  unique_addresses 0
    { gc := { ref_container_ := [⟨1, 20, false, 0⟩, ⟨2, 10, false, 0⟩],
              first_ := false, atexit_ := 1, released := [] },
      handles := [some ⟨10, false, 0⟩, some ⟨20, false, 0⟩, some ⟨10, false, 0⟩] }
    (Reach_run [.construct 10, .construct 20, .construct 10] Reach.init
      (fun _ _ => trivial) (by decide))

/-! ## Tables that mirror a counting function -/

theorem refCountOf_eq_zero_of_not_mem {t : List PtrDetails} {a : Addr} (h : a ∉ addrs t) :
    refCountOf t a = 0 := by
  simp [refCountOf, (lookup_eq_none t a).mpr h]

theorem mem_addrs_of_refCountOf_pos {t : List PtrDetails} {a : Addr} (h : 1 ≤ refCountOf t a) :
    a ∈ addrs t := by
  by_contra hn
  rw [refCountOf_eq_zero_of_not_mem hn] at h
  omega

theorem refCountOf_of_lookup {t : List PtrDetails} {a : Addr} {r : PtrDetails}
    (h : lookup t a = some r) : refCountOf t a = r.ref_count_ := by
  simp [refCountOf, h]

theorem lookup_of_mem_addrs {t : List PtrDetails} {a : Addr} (h : a ∈ addrs t) :
    ∃ r, lookup t a = some r := by
  cases hl : lookup t a with
  | none => exact absurd h ((lookup_eq_none t a).mp hl)
  | some r => exact ⟨r, rfl⟩

theorem Good.mem_iff {t : List PtrDetails} {f : Addr → Nat} (h : Good t f) (a : Addr) :
    a ∈ addrs t ↔ 1 ≤ f a := by
  constructor
  · intro ha
    obtain ⟨r, hr⟩ := lookup_of_mem_addrs ha
    rw [← h.2.2 a, refCountOf_of_lookup hr]
    exact h.2.1 r (lookup_some_mem hr).1
  · intro ha
    rw [← h.2.2 a] at ha
    exact mem_addrs_of_refCountOf_pos ha

theorem Good.count_eq {t : List PtrDetails} {f : Addr → Nat} (h : Good t f) {r : PtrDetails}
    (hr : r ∈ t) : r.ref_count_ = f r.mem_ptr_ := by
  rw [← h.2.2, refCountOf_of_lookup (lookup_of_mem_nodup h.1 hr)]

theorem Good.found {t : List PtrDetails} {f : Addr → Nat} (h : Good t f) {a : Addr}
    (ha : 1 ≤ f a) : FindPtrInfo t a ≠ t.length := by
  rw [Ne, FindPtrInfo_eq_length, not_not]
  exact (h.mem_iff a).mpr ha

theorem Good_incr {t : List PtrDetails} {f f1 : Addr → Nat} {a : Addr} (h : Good t f)
    (ha : 1 ≤ f a) (hb : f a + 1 < UINT_MOD) (hf : ∀ b, f1 b = if b = a then f a + 1 else f b) :
    Good (updateAt PtrDetails.incr (FindPtrInfo t a) t) f1 := by
  obtain ⟨r, hr⟩ := lookup_of_mem_addrs ((h.mem_iff a).mpr ha)
  have hc : r.ref_count_ = f a := by rw [← h.2.2 a, refCountOf_of_lookup hr]
  refine ⟨nodup_updateAt incr_mem_ptr _ h.1, ?_, ?_⟩
  · intro x hx
    rcases mem_updateAt hx with h1 | ⟨r0, _, hg, rfl⟩
    · exact h.2.1 x h1
    · have : r0 = r := by
        simp only [lookup] at hr
        rw [hg] at hr
        exact Option.some.inj hr
      subst this
      rw [incr_ref_count, hc, toUnsigned_succ _ hb]
      omega
  · intro b
    rw [refCountOf_updateAt_find _ incr_mem_ptr, hf b, hr]
    by_cases hba : b = a
    · simp only [hba, if_true, Option.map_some', Option.getD_some]
      rw [incr_ref_count, hc, toUnsigned_succ _ hb]
    · simp only [hba, if_false]
      exact h.2.2 b

theorem Good_cons {t : List PtrDetails} {f f1 : Addr → Nat} {a : Addr} (sz : Int) (h : Good t f)
    (ha : a ∉ addrs t) (hf : ∀ b, f1 b = if b = a then f a + 1 else f b) :
    Good (PtrDetails.ctor a sz :: t) f1 := by
  have h0 : f a = 0 := by rw [← h.2.2 a, refCountOf_eq_zero_of_not_mem ha]
  refine ⟨?_, ?_, ?_⟩
  · simp only [addrs_cons, List.nodup_cons]
    exact ⟨ha, h.1⟩
  · rw [NoZero_cons]
    exact ⟨le_refl 1, h.2.1⟩
  · intro b
    rw [refCountOf_cons, hf b, h0]
    by_cases hba : b = a
    · subst hba
      simp [PtrDetails.ctor]
    · have : ¬ (PtrDetails.ctor a sz).mem_ptr_ = b := fun e => hba e.symm
      simp only [this, hba, if_false]
      exact h.2.2 b

theorem Good_registered {t : List PtrDetails} {f f1 : Addr → Nat} {a : Addr} (sz : Int)
    (h : Good t f) (hb : f a + 1 < UINT_MOD) (hf : ∀ b, f1 b = if b = a then f a + 1 else f b) :
    Good (registered t a sz) f1 := by
  unfold registered
  by_cases hfd : FindPtrInfo t a = t.length
  · simp only [hfd, if_true]
    exact Good_cons sz h ((FindPtrInfo_eq_length t a).mp hfd) hf
  · simp only [hfd, if_false]
    have ha : 1 ≤ f a := by
      rw [FindPtrInfo_eq_length, not_not] at hfd
      exact (h.mem_iff a).mp hfd
    exact Good_incr h ha hb hf

theorem refCountOf_filter {t : List PtrDetails} (hn : (addrs t).Nodup) (a : Addr) :
    refCountOf (t.filter fun r => decide (r.ref_count_ ≠ 0)) a = refCountOf t a := by
  induction t with
  | nil => rfl
  | cons x xs ih =>
    simp only [addrs_cons, List.nodup_cons] at hn
    rw [List.filter_cons]
    by_cases hx : x.ref_count_ = 0
    · have e : decide (x.ref_count_ ≠ 0) = false := by simp [hx]
      simp only [e, Bool.false_eq_true, if_false]
      rw [ih hn.2, refCountOf_cons]
      by_cases hxa : x.mem_ptr_ = a
      · simp only [hxa, if_true, hx]
        exact refCountOf_eq_zero_of_not_mem (hxa ▸ hn.1)
      · simp only [hxa, if_false]
    · have e : decide (x.ref_count_ ≠ 0) = true := by simp [hx]
      simp only [e, if_true]
      rw [refCountOf_cons, refCountOf_cons, ih hn.2]

theorem NoZero_filter (t : List PtrDetails) :
    NoZero (t.filter fun r => decide (r.ref_count_ ≠ 0)) := by
  intro r hr
  have := (List.mem_filter.mp hr).2
  simp only [decide_eq_true_eq] at this
  omega

theorem mem_released_iff {t : List PtrDetails} (hn : (addrs t).Nodup) (a : Addr) :
    a ∈ ((t.filter fun r => decide (r.ref_count_ = 0)).map releaseOf).map Prod.fst ↔
      a ∈ addrs t ∧ refCountOf t a = 0 := by
  simp only [List.mem_map, List.mem_filter, decide_eq_true_eq, releaseOf]
  constructor
  · rintro ⟨_, ⟨r, ⟨hr, h0⟩, rfl⟩, rfl⟩
    refine ⟨mem_addrs.mpr ⟨r, hr, rfl⟩, ?_⟩
    rw [refCountOf_of_lookup (lookup_of_mem_nodup hn hr)]
    exact h0
  · rintro ⟨ha, h0⟩
    obtain ⟨r, hr⟩ := lookup_of_mem_addrs ha
    have hm := lookup_some_mem hr
    rw [refCountOf_of_lookup hr] at h0
    exact ⟨(r.mem_ptr_, r.is_array_), ⟨r, ⟨hm.1, h0⟩, rfl⟩, hm.2⟩

theorem nodup_released {t : List PtrDetails} (hn : (addrs t).Nodup) :
    (((t.filter fun r => decide (r.ref_count_ = 0)).map releaseOf).map Prod.fst).Nodup := by
  have : ((t.filter fun r => decide (r.ref_count_ = 0)).map releaseOf).map Prod.fst =
      addrs (t.filter fun r => decide (r.ref_count_ = 0)) := by
    simp [addrs, releaseOf, List.map_map, Function.comp_def]
  rw [this]
  exact nodup_filter _ hn

theorem decremented_spec {t : List PtrDetails} {f : Addr → Nat} {a : Addr} (h : Good t f)
    (ha : 1 ≤ f a) (hb : f a < UINT_MOD) :
    (addrs (decremented t a)).Nodup ∧ addrs (decremented t a) = addrs t ∧
    (∀ b, refCountOf (decremented t a) b = if b = a then f a - 1 else f b) := by
  obtain ⟨r, hr⟩ := lookup_of_mem_addrs ((h.mem_iff a).mpr ha)
  have hc : r.ref_count_ = f a := by rw [← h.2.2 a, refCountOf_of_lookup hr]
  refine ⟨nodup_updateAt decr_mem_ptr _ h.1, addrs_updateAt _ decr_mem_ptr _ _, ?_⟩
  intro b
  unfold decremented
  rw [refCountOf_updateAt_find _ decr_mem_ptr, hr]
  by_cases hba : b = a
  · simp only [hba, if_true, Option.map_some', Option.getD_some]
    rw [decr_ref_count, hc, toUnsigned_pred _ ha hb]
  · simp only [hba, if_false]
    exact h.2.2 b

theorem Good_released {t : List PtrDetails} {f f1 : Addr → Nat} {a : Addr} (h : Good t f)
    (ha : 1 ≤ f a) (hb : f a < UINT_MOD) (hf : ∀ b, f1 b = if b = a then f a - 1 else f b) :
    Good ((decremented t a).filter fun r => decide (r.ref_count_ ≠ 0)) f1 ∧
    ((((decremented t a).filter fun r => decide (r.ref_count_ = 0)).map releaseOf).map
      Prod.fst).Nodup ∧
    ∀ b, b ∈ (((decremented t a).filter fun r => decide (r.ref_count_ = 0)).map releaseOf).map
      Prod.fst ↔ b = a ∧ f a = 1 := by
  obtain ⟨h1, h2, h3⟩ := decremented_spec h ha hb
  refine ⟨⟨nodup_filter _ h1, NoZero_filter _, ?_⟩, nodup_released h1, ?_⟩
  · intro b
    rw [refCountOf_filter h1, h3 b, hf b]
  · intro b
    rw [mem_released_iff h1, h2, h3 b, h.mem_iff b]
    by_cases hba : b = a
    · subst hba
      simp only [if_true, true_and]
      omega
    · simp only [hba, if_false, false_and, iff_false, not_and]
      omega

/-! ## Counting live objects -/

theorem liveAt_nil (a : Addr) : liveAt [] a = 0 := rfl

theorem liveAt_cons (o : Option Pointer) (hs : List (Option Pointer)) (a : Addr) :
    liveAt (o :: hs) a = liveAt hs a + weight o a := by
  cases o with
  | none => simp [liveAt, weight, List.countP_cons]
  | some p => by_cases h : p.addr_ = a <;> simp [liveAt, weight, List.countP_cons, h]

theorem liveAt_append_one (hs : List (Option Pointer)) (o : Option Pointer) (a : Addr) :
    liveAt (hs ++ [o]) a = liveAt hs a + weight o a := by
  induction hs with
  | nil => simp [liveAt_cons, liveAt_nil]
  | cons x xs ih =>
    simp only [List.cons_append, liveAt_cons, ih]
    omega

theorem liveAt_set {hs : List (Option Pointer)} {h : Nat} {p : Pointer}
    (hp : hs.getD h none = some p) (o : Option Pointer) (a : Addr) :
    liveAt (hs.set h o) a + weight (some p) a = liveAt hs a + weight o a := by
  induction hs generalizing h with
  | nil => simp at hp
  | cons x xs ih =>
    cases h with
    | zero =>
      simp only [List.getD_cons_zero] at hp
      subst hp
      simp only [List.set_cons_zero, liveAt_cons]
      omega
    | succ n =>
      simp only [List.getD_cons_succ] at hp
      have := ih hp
      simp only [List.set_cons_succ, liveAt_cons]
      omega

theorem liveAt_pos {hs : List (Option Pointer)} {h : Nat} {p : Pointer}
    (hp : hs.getD h none = some p) : 1 ≤ liveAt hs p.addr_ := by
  have := liveAt_set hp none p.addr_
  simp only [weight, if_true] at this
  omega

/-! ## The two phases of the operations -/

theorem release_phase {g : Gc} {f : Addr → Nat} (f1 : Addr → Nat) {a : Addr}
    (h : Good g.ref_container_ f)
    (ha : 1 ≤ f a) (hb : f a < UINT_MOD) (hf : ∀ b, f1 b = if b = a then f a - 1 else f b) :
    Good (afterDecrement g a).ref_container_ f1 ∧
    ∃ delta, (afterDecrement g a).released = g.released ++ delta ∧
      (delta.map Prod.fst).Nodup ∧ ∀ b, b ∈ delta.map Prod.fst ↔ b = a ∧ f a = 1 := by
  obtain ⟨h1, h2, h3⟩ := Good_released h ha hb hf
  refine ⟨?_, _, Collect_released _, h2, h3⟩
  unfold afterDecrement
  rw [Collect_ref_container]
  exact h1

theorem ctor_eq (size : Int) (a : Addr) (g : Gc) :
    (Pointer.ctor size a g).1.ref_container_ =
      registered g.ref_container_ a (toInt (toUnsigned size)) ∧
    (Pointer.ctor size a g).1.released = g.released ∧
    (Pointer.ctor size a g).2.addr_ = a := by
  unfold Pointer.ctor registered
  by_cases hf : FindPtrInfo g.ref_container_ a = g.ref_container_.length <;> simp [hf]

theorem copy_ctor_eq (q : Pointer) (g : Gc) :
    Pointer.copy_ctor q g =
      if FindPtrInfo g.ref_container_ q.addr_ = g.ref_container_.length then none
      else some
        ({ g with
            ref_container_ :=
              updateAt PtrDetails.incr (FindPtrInfo g.ref_container_ q.addr_) g.ref_container_ },
          q) := by
  cases q
  rfl

theorem dtor_eq (q : Pointer) (g : Gc) :
    Pointer.dtor q g =
      if FindPtrInfo g.ref_container_ q.addr_ = g.ref_container_.length then none
      else some (afterDecrement g q.addr_) :=
  rfl

theorem assign_raw_eq (size : Int) (q : Pointer) (b : Addr) (g : Gc) (hne : q.addr_ ≠ b) :
    Pointer.assign_raw size q b g =
      if FindPtrInfo g.ref_container_ q.addr_ = g.ref_container_.length then none
      else some
        ({ afterDecrement g q.addr_ with
            ref_container_ := registered (afterDecrement g q.addr_).ref_container_ b size },
          { q with addr_ := b }, b) := by
  unfold Pointer.assign_raw registered afterDecrement decremented
  simp only [hne, if_false]
  by_cases hf : FindPtrInfo g.ref_container_ q.addr_ = g.ref_container_.length
  · simp only [hf, if_true]
  · simp only [hf, if_false]
    split <;> rfl

theorem assign_eq (q r : Pointer) (g : Gc) (hne : q.addr_ ≠ r.addr_) :
    Pointer.assign q r g =
      if FindPtrInfo g.ref_container_ q.addr_ = g.ref_container_.length then none
      else if FindPtrInfo (afterDecrement g q.addr_).ref_container_ r.addr_ =
          (afterDecrement g q.addr_).ref_container_.length then none
      else some
        ({ afterDecrement g q.addr_ with
            ref_container_ :=
              updateAt PtrDetails.incr
                (FindPtrInfo (afterDecrement g q.addr_).ref_container_ r.addr_)
                (afterDecrement g q.addr_).ref_container_ },
          { q with addr_ := r.addr_ }) := by
  unfold Pointer.assign afterDecrement decremented
  simp only [hne, if_false]

/-! ## One call preserves the mirror property -/

theorem weight_some (p : Pointer) (b : Addr) :
    weight (some p) b = if b = p.addr_ then 1 else 0 := by
  by_cases h : b = p.addr_
  · simp [weight, h]
  · have : ¬ p.addr_ = b := fun e => h e.symm
    simp [weight, h, this]

theorem weight_none (b : Addr) : weight none b = 0 := rfl

theorem ReleasesDropped_nil {w w1 : World} (hr : w1.gc.released = w.gc.released)
    (hl : ∀ a, liveAt w.handles a ≤ liveAt w1.handles a) : ReleasesDropped w w1 := by
  refine ⟨[], by simp [hr], List.nodup_nil, ?_⟩
  intro a
  have := hl a
  simp only [List.map_nil, List.not_mem_nil, false_iff, not_and]
  omega

theorem step_construct_spec (size : Int) {w : World} (hI : Inv w) (a : Addr) (w1 : World)
    (hs : step size w (.construct a) = .ok w1) :
    ReleasesDropped w w1 ∧ (Bounded w1 → Inv w1) := by
  obtain ⟨e1, e2, e3⟩ := ctor_eq size a w.gc
  simp only [step, Outcome.ok.injEq] at hs
  subst hs
  have hl : ∀ b, liveAt (w.handles ++ [some (Pointer.ctor size a w.gc).2]) b =
      if b = a then liveAt w.handles a + 1 else liveAt w.handles b := by
    intro b
    rw [liveAt_append_one, weight_some, e3]
    by_cases hb : b = a
    · simp [hb]
    · simp [hb]
  refine ⟨ReleasesDropped_nil e2 ?_, ?_⟩
  · intro b
    simp only
    rw [hl b]
    by_cases hb : b = a
    · simp [hb]
    · simp [hb]
  · intro hB
    have hb := hB a
    simp only at hb
    rw [hl a, if_pos rfl] at hb
    unfold Inv
    simp only
    rw [e1]
    exact Good_registered _ hI hb hl

theorem step_copy_spec (size : Int) {w : World} (hI : Inv w) (src : Nat) :
    step size w (.copy src) ≠ .broken_invariant ∧
    ∀ w1, step size w (.copy src) = .ok w1 → ReleasesDropped w w1 ∧ (Bounded w1 → Inv w1) := by
  cases hq : w.handle src with
  | none => simp [step, hq]
  | some q =>
    have hpos : 1 ≤ liveAt w.handles q.addr_ := liveAt_pos hq
    have hfound := hI.found hpos
    have hc := copy_ctor_eq q w.gc
    rw [if_neg hfound] at hc
    simp only [step, hq, hc]
    refine ⟨by simp, ?_⟩
    intro w1 hs
    simp only [Outcome.ok.injEq] at hs
    subst hs
    have hl : ∀ b, liveAt (w.handles ++ [some q]) b =
        if b = q.addr_ then liveAt w.handles q.addr_ + 1 else liveAt w.handles b := by
      intro b
      rw [liveAt_append_one, weight_some]
      by_cases hb : b = q.addr_
      · simp [hb]
      · simp [hb]
    refine ⟨ReleasesDropped_nil rfl ?_, ?_⟩
    · intro b
      simp only
      rw [hl b]
      by_cases hb : b = q.addr_
      · simp [hb]
      · simp [hb]
    · intro hB
      have hb := hB q.addr_
      simp only at hb
      rw [hl q.addr_, if_pos rfl] at hb
      exact Good_incr hI hpos hb hl

theorem step_destruct_spec (size : Int) {w : World} (hI : Inv w) (hB : Bounded w) (i : Nat) :
    step size w (.destruct i) ≠ .broken_invariant ∧
    ∀ w1, step size w (.destruct i) = .ok w1 → ReleasesDropped w w1 ∧ (Bounded w1 → Inv w1) := by
  cases hq : w.handle i with
  | none => simp [step, hq]
  | some q =>
    have hpos : 1 ≤ liveAt w.handles q.addr_ := liveAt_pos hq
    have hfound := hI.found hpos
    have hc := dtor_eq q w.gc
    rw [if_neg hfound] at hc
    simp only [step, hq, hc]
    refine ⟨by simp, ?_⟩
    intro w1 hs
    simp only [Outcome.ok.injEq] at hs
    subst hs
    have hl : ∀ b, liveAt (w.handles.set i none) b =
        if b = q.addr_ then liveAt w.handles q.addr_ - 1 else liveAt w.handles b := by
      intro b
      have := liveAt_set hq none b
      rw [weight_some, weight_none] at this
      by_cases hb : b = q.addr_
      · subst hb
        simp only [if_true] at this ⊢
        omega
      · simp only [hb, if_false] at this ⊢
        omega
    obtain ⟨hG, delta, hd1, hd2, hd3⟩ := release_phase _ hI hpos (hB q.addr_) hl
    refine ⟨⟨delta, hd1, hd2, ?_⟩, fun _ => hG⟩
    intro b
    rw [hd3 b]
    simp only
    rw [hl b]
    by_cases hb : b = q.addr_
    · subst hb
      simp only [if_true, true_and]
      omega
    · simp only [hb, if_false, false_and, false_iff, not_and]
      omega

theorem liveAt_reassign {hs : List (Option Pointer)} {i : Nat} {q : Pointer}
    (hq : hs.getD i none = some q) (b : Addr) (hne : q.addr_ ≠ b) (c : Addr) :
    liveAt (hs.set i (some { q with addr_ := b })) c =
      if c = b then (if b = q.addr_ then liveAt hs q.addr_ - 1 else liveAt hs b) + 1
      else if c = q.addr_ then liveAt hs q.addr_ - 1 else liveAt hs c := by
  have h1 := liveAt_set hq (some { q with addr_ := b }) c
  have h2 := liveAt_pos hq
  rw [weight_some, weight_some] at h1
  have hne1 : ¬ b = q.addr_ := fun e => hne e.symm
  by_cases hcb : c = b
  · subst hcb
    simp only [hne1, if_true, if_false] at h1 ⊢
    omega
  · by_cases hca : c = q.addr_
    · subst hca
      simp only [hcb, if_true, if_false] at h1 ⊢
      omega
    · simp only [hcb, hca, if_false] at h1 ⊢
      omega

theorem ReleasesDropped_reassign {w w1 : World} {i : Nat} {q : Pointer} {b : Addr}
    {delta : List Release} (hq : w.handle i = some q) (hne : q.addr_ ≠ b)
    (hh : w1.handles = w.handles.set i (some { q with addr_ := b }))
    (hd1 : w1.gc.released = w.gc.released ++ delta) (hd2 : (delta.map Prod.fst).Nodup)
    (hd3 : ∀ c, c ∈ delta.map Prod.fst ↔ c = q.addr_ ∧ liveAt w.handles q.addr_ = 1) :
    ReleasesDropped w w1 := by
  refine ⟨delta, hd1, hd2, ?_⟩
  intro c
  rw [hd3 c, hh, liveAt_reassign hq b hne c]
  have hne1 : ¬ b = q.addr_ := fun e => hne e.symm
  by_cases hcb : c = b
  · subst hcb
    simp only [hne1, if_true, if_false, false_and, false_iff, not_and]
    omega
  · by_cases hca : c = q.addr_
    · subst hca
      simp only [hcb, if_true, if_false, true_and]
      omega
    · simp only [hcb, hca, if_false, false_and, false_iff, not_and]
      omega

theorem step_assign_raw_spec (size : Int) {w : World} (hI : Inv w) (hB : Bounded w) (i : Nat)
    (b : Addr) :
    step size w (.assign_raw i b) ≠ .broken_invariant ∧
    ∀ w1, step size w (.assign_raw i b) = .ok w1 →
      ReleasesDropped w w1 ∧ (Bounded w1 → Inv w1) := by
  cases hq : w.handle i with
  | none => simp [step, hq]
  | some q =>
    by_cases hne : q.addr_ = b
    · subst hne
      have hsame : step size w (.assign_raw i q.addr_) = .ok w :=
        ((assign_same_addr_aux size w.gc q).2 w i hq).1
      rw [hsame]
      refine ⟨by simp, ?_⟩
      intro w1 hs
      simp only [Outcome.ok.injEq] at hs
      subst hs
      exact ⟨ReleasesDropped_nil rfl (fun _ => le_refl _), fun _ => hI⟩
    · have hpos : 1 ≤ liveAt w.handles q.addr_ := liveAt_pos hq
      have hfound := hI.found hpos
      have hc := assign_raw_eq size q b w.gc hne
      rw [if_neg hfound] at hc
      simp only [step, hq, hc]
      refine ⟨by simp, ?_⟩
      intro w1 hs
      simp only [Outcome.ok.injEq] at hs
      subst hs
      obtain ⟨hG, delta, hd1, hd2, hd3⟩ := release_phase
        (fun c => if c = q.addr_ then liveAt w.handles q.addr_ - 1 else liveAt w.handles c)
        hI hpos (hB q.addr_) (fun _ => rfl)
      refine ⟨ReleasesDropped_reassign hq hne rfl hd1 hd2 hd3, ?_⟩
      intro hB1
      have hb := hB1 b
      simp only at hb
      rw [liveAt_reassign hq b hne b, if_pos rfl] at hb
      exact Good_registered size hG hb (fun c => liveAt_reassign hq b hne c)

theorem step_assign_spec (size : Int) {w : World} (hI : Inv w) (hB : Bounded w) (i j : Nat) :
    step size w (.assign i j) ≠ .broken_invariant ∧
    ∀ w1, step size w (.assign i j) = .ok w1 →
      ReleasesDropped w w1 ∧ (Bounded w1 → Inv w1) := by
  cases hq : w.handle i with
  | none => simp [step, hq]
  | some q =>
    cases hr : w.handle j with
    | none => simp [step, hq, hr]
    | some r =>
      by_cases hne : q.addr_ = r.addr_
      · have hsame : step size w (.assign i j) = .ok w :=
          ((assign_same_addr_aux size w.gc q).2 w i hq).2 j r hr hne.symm
        rw [hsame]
        refine ⟨by simp, ?_⟩
        intro w1 hs
        simp only [Outcome.ok.injEq] at hs
        subst hs
        exact ⟨ReleasesDropped_nil rfl (fun _ => le_refl _), fun _ => hI⟩
      · have hpos : 1 ≤ liveAt w.handles q.addr_ := liveAt_pos hq
        have hposr : 1 ≤ liveAt w.handles r.addr_ := liveAt_pos hr
        have hfound := hI.found hpos
        obtain ⟨hG, delta, hd1, hd2, hd3⟩ := release_phase
          (fun c => if c = q.addr_ then liveAt w.handles q.addr_ - 1
            else liveAt w.handles c)
          hI hpos (hB q.addr_) (fun _ => rfl)
        have hne1 : ¬ r.addr_ = q.addr_ := fun e => hne e.symm
        have hpos1 : 1 ≤ (fun c => if c = q.addr_ then liveAt w.handles q.addr_ - 1
            else liveAt w.handles c) r.addr_ := by
          simp only [hne1, if_false]
          exact hposr
        have hfound1 := hG.found hpos1
        have hc := assign_eq q r w.gc hne
        rw [if_neg hfound, if_neg hfound1] at hc
        simp only [step, hq, hr, hc]
        refine ⟨by simp, ?_⟩
        intro w1 hs
        simp only [Outcome.ok.injEq] at hs
        subst hs
        refine ⟨ReleasesDropped_reassign hq hne rfl hd1 hd2 hd3, ?_⟩
        intro hB1
        have hb := hB1 r.addr_
        simp only at hb
        rw [liveAt_reassign hq r.addr_ hne r.addr_, if_pos rfl] at hb
        exact Good_incr hG hpos1 hb (fun c => liveAt_reassign hq r.addr_ hne c)

theorem step_spec (size : Int) {w : World} (hI : Inv w) (hB : Bounded w) (op : Op)
    (hop : op.onHandle = true) :
    step size w op ≠ .broken_invariant ∧
    ∀ w1, step size w op = .ok w1 → ReleasesDropped w w1 ∧ (Bounded w1 → Inv w1) := by
  cases op with
  | construct a => exact ⟨by simp [step], step_construct_spec size hI a⟩
  | copy src => exact step_copy_spec size hI src
  | destruct i => exact step_destruct_spec size hI hB i
  | assign_raw i b => exact step_assign_raw_spec size hI hB i b
  | assign i j => exact step_assign_spec size hI hB i j
  | collect => simp [Op.onHandle] at hop
  | shutdown => simp [Op.onHandle] at hop

theorem Inv_init : Inv World.init := by
  refine ⟨List.nodup_nil, ?_, ?_⟩
  · intro r hr
    simp [World.init, Gc.init] at hr
  · intro a
    rfl

theorem Bounded_init : Bounded World.init := by
  intro a
  rw [UINT_MOD_eq]
  simp [World.init, liveAt]

theorem ReachableBounded_spec {size : Int} {w : World} (h : ReachableBounded size w) :
    Inv w ∧ Bounded w := by
  induction h with
  | init => exact ⟨Inv_init, Bounded_init⟩
  | next op _ hop hs hin ih => exact ⟨((step_spec size ih.1 ih.2 op hop).2 _ hs).2 hin, hin⟩

/-! ## Runs with a bounded number of objects -/

theorem liveAt_le_length (hs : List (Option Pointer)) (a : Addr) : liveAt hs a ≤ hs.length :=
  List.countP_le_length _

theorem Bounded_of_length {w : World} (h : w.handles.length < UINT_MOD) : Bounded w :=
  fun a => lt_of_le_of_lt (liveAt_le_length _ a) h

theorem step_handles_length {size : Int} {w w1 : World} {op : Op}
    (hs : step size w op = .ok w1) : w1.handles.length ≤ w.handles.length + 1 := by
  cases op with
  | construct a =>
    simp only [step, Outcome.ok.injEq] at hs
    subst hs
    simp
  | copy src =>
    simp only [step] at hs
    split at hs
    · simp at hs
    · split at hs
      · simp at hs
      · simp only [Outcome.ok.injEq] at hs
        subst hs
        simp
  | destruct i =>
    simp only [step] at hs
    split at hs
    · simp at hs
    · split at hs
      · simp at hs
      · simp only [Outcome.ok.injEq] at hs
        subst hs
        simp
  | assign_raw i a =>
    simp only [step] at hs
    split at hs
    · simp at hs
    · split at hs
      · simp at hs
      · simp only [Outcome.ok.injEq] at hs
        subst hs
        simp
  | assign i j =>
    simp only [step] at hs
    split at hs
    · split at hs
      · simp at hs
      · simp only [Outcome.ok.injEq] at hs
        subst hs
        simp
    · simp at hs
  | collect =>
    simp only [step, Outcome.ok.injEq] at hs
    subst hs
    simp
  | shutdown =>
    simp only [step, Outcome.ok.injEq] at hs
    subst hs
    simp

theorem ReachableBounded_run_aux {size : Int} (ops : List Op) {w w1 : World}
    (h : ReachableBounded size w) (hl : w.handles.length + ops.length < UINT_MOD)
    (ha : ∀ op ∈ ops, op.onHandle = true) (hr : run size ops w = .ok w1) :
    ReachableBounded size w1 := by
  induction ops generalizing w with
  | nil =>
    simp only [run, Outcome.ok.injEq] at hr
    rw [← hr]
    exact h
  | cons op ops ih =>
    simp only [run] at hr
    simp only [List.length_cons] at hl
    cases hs : step size w op with
    | ok w2 =>
      rw [hs] at hr
      have hlen := step_handles_length hs
      refine ih (Reach.next op h (ha op (List.mem_cons_self _ _)) hs
        (Bounded_of_length (by omega))) (by omega)
        (fun o ho => ha o (List.mem_cons_of_mem _ ho)) hr
    | not_live => rw [hs] at hr; simp at hr
    | broken_invariant => rw [hs] at hr; simp at hr

theorem ReachableBounded_run {size : Int} (ops : List Op) {w1 : World}
    (hl : ops.length < UINT_MOD) (ha : ∀ op ∈ ops, op.onHandle = true)
    (hr : run size ops World.init = .ok w1) : ReachableBounded size w1 :=
  ReachableBounded_run_aux ops Reach.init (by simpa [World.init] using hl) ha hr

/-! ## The reference-count invariant -/

/-- C1, for runs in which no address ever has `2 ^ 32` or more live objects: in every state
reached from program start by constructions, copies, destructions and assignments on live
objects, the reference count of each record is the number of live objects that point to the
address of the record; and every such call made in that state releases, exactly once each,
exactly the addresses that have a live object before the call and none after it. -/
theorem refcount_invariant (size : Int) (w : World) (h : ReachableBounded size w) :
    (∀ r ∈ w.gc.ref_container_, r.ref_count_ = liveAt w.handles r.mem_ptr_) ∧
    ∀ (op : Op) (w1 : World), op.onHandle = true → step size w op = .ok w1 →
      ∃ delta, w1.gc.released = w.gc.released ++ delta ∧ (delta.map Prod.fst).Nodup ∧
        ∀ a, a ∈ delta.map Prod.fst ↔ (0 < liveAt w.handles a ∧ liveAt w1.handles a = 0) := by
  obtain ⟨hI, hB⟩ := ReachableBounded_spec h
  refine ⟨fun r hr => hI.count_eq hr, ?_⟩
  intro op w1 hop hs
  exact ((step_spec size hI hB op hop).2 w1 hs).1

/-- Witness for C1: after `Pointer a(10); Pointer b(a); Pointer c(20); b = c;` the record of
address 10 counts one object and destroying `a` releases address 10. -/
theorem refcount_invariant_witness :
    ∃ delta, [(10, false)] = ([] : List Release) ++ delta ∧ (delta.map Prod.fst).Nodup ∧
      ∀ a, a ∈ delta.map Prod.fst ↔
        (0 < liveAt [some ⟨10, false, 0⟩, some ⟨20, false, 0⟩, some ⟨20, false, 0⟩] a ∧
          liveAt [none, some ⟨20, false, 0⟩, some ⟨20, false, 0⟩] a = 0) :=
  (refcount_invariant 0
    { gc := { ref_container_ := [⟨2, 20, false, 0⟩, ⟨1, 10, false, 0⟩],
              first_ := false, atexit_ := 1, released := [] },
      handles := [some ⟨10, false, 0⟩, some ⟨20, false, 0⟩, some ⟨20, false, 0⟩] }
    (ReachableBounded_run [.construct 10, .copy 0, .construct 20, .assign 1 2]
      (by rw [UINT_MOD_eq]; decide) (by decide) (by decide))).2
    (.destruct 0)
    { gc := { ref_container_ := [⟨2, 20, false, 0⟩],
              first_ := false, atexit_ := 1, released := [(10, false)] },
      handles := [none, some ⟨20, false, 0⟩, some ⟨20, false, 0⟩] }
    rfl (by decide)

/-! ## The lookups of live objects succeed -/

/-- C10, for runs in which no address ever has `2 ^ 32` or more live objects: in every state
reached from program start by constructions, copies, destructions and assignments on live
objects (self-assignment included), every live object has a record for its address, and no
such call ends in a failed assertion. -/
theorem lookups_succeed (size : Int) (w : World) (h : ReachableBounded size w) :
    (∀ i q, w.handle i = some q →
      FindPtrInfo w.gc.ref_container_ q.addr_ ≠ w.gc.ref_container_.length) ∧
    ∀ op : Op, op.onHandle = true → step size w op ≠ .broken_invariant := by
  obtain ⟨hI, hB⟩ := ReachableBounded_spec h
  exact ⟨fun i q hq => hI.found (liveAt_pos hq), fun op hop => (step_spec size hI hB op hop).1⟩

/-- Witness for C10: after `Pointer a(10); Pointer b(a); Pointer c(20); b = c;` the assignment
`a = c` does not fail. -/
theorem lookups_succeed_witness :
    step 0
      { gc := { ref_container_ := [⟨2, 20, false, 0⟩, ⟨1, 10, false, 0⟩],
                first_ := false, atexit_ := 1, released := [] },
        handles := [some ⟨10, false, 0⟩, some ⟨20, false, 0⟩, some ⟨20, false, 0⟩] }
      (.assign 0 2) ≠ .broken_invariant :=
  (lookups_succeed 0
    { gc := { ref_container_ := [⟨2, 20, false, 0⟩, ⟨1, 10, false, 0⟩],
              first_ := false, atexit_ := 1, released := [] },
      handles := [some ⟨10, false, 0⟩, some ⟨20, false, 0⟩, some ⟨20, false, 0⟩] }
    (ReachableBounded_run [.construct 10, .copy 0, .construct 20, .assign 1 2]
      (by rw [UINT_MOD_eq]; decide) (by decide) (by decide))).2 (.assign 0 2) rfl

theorem lookup_filter_of_ne_zero {t : List PtrDetails} {x : Addr} {r : PtrDetails}
    (hr : lookup t x = some r) (h0 : r.ref_count_ ≠ 0) :
    lookup (t.filter fun r => decide (r.ref_count_ ≠ 0)) x = some r := by
  induction t with
  | nil => simp [lookup_nil] at hr
  | cons y ys ih =>
    rw [lookup_cons] at hr
    rw [List.filter_cons]
    by_cases hy : y.mem_ptr_ = x
    · simp only [hy, if_true, Option.some.injEq] at hr
      subst hr
      have e : decide (y.ref_count_ ≠ 0) = true := by simp [h0]
      simp only [e, if_true, lookup_cons, hy]
    · simp only [hy, if_false] at hr
      by_cases hy0 : y.ref_count_ = 0
      · have e : decide (y.ref_count_ ≠ 0) = false := by simp [hy0]
        simp only [e, Bool.false_eq_true, if_false]
        exact ih hr
      · have e : decide (y.ref_count_ ≠ 0) = true := by simp [hy0]
        simp only [e, if_true, lookup_cons, hy, if_false]
        exact ih hr

theorem lookup_filter_none {t : List PtrDetails} {x : Addr} (hr : lookup t x = none)
    (q : PtrDetails → Bool) : lookup (t.filter q) x = none := by
  rw [lookup_eq_none] at hr ⊢
  intro hx
  obtain ⟨r, hr1, hr2⟩ := mem_addrs.mp hx
  exact hr (mem_addrs.mpr ⟨r, (List.mem_filter.mp hr1).1, hr2⟩)

theorem lookup_filter_updateAt {t : List PtrDetails} {a x : Addr} (hz : NoZero t)
    (hx : x ≠ a) :
    lookup ((updateAt PtrDetails.decr (FindPtrInfo t a) t).filter
      fun r => decide (r.ref_count_ ≠ 0)) x = lookup t x := by
  have h1 : lookup (updateAt PtrDetails.decr (FindPtrInfo t a) t) x = lookup t x := by
    rw [lookup_updateAt_find _ decr_mem_ptr, if_neg hx]
  cases hl : lookup t x with
  | none =>
    rw [hl] at h1
    exact lookup_filter_none h1 _
  | some r =>
    rw [hl] at h1
    have : r.ref_count_ ≠ 0 := by
      have := hz r (lookup_some_mem hl).1
      omega
    exact lookup_filter_of_ne_zero h1 this

/-! ## Assignment of a new address -/

theorem eq_singleton_or_nil {l : List Addr} {a : Addr} {P : Prop} (hn : l.Nodup)
    (h : ∀ x, x ∈ l ↔ x = a ∧ P) : (P → l = [a]) ∧ (¬ P → l = []) := by
  constructor
  · intro hP
    cases l with
    | nil =>
      have := (h a).mpr ⟨rfl, hP⟩
      simp at this
    | cons x xs =>
      have hx : x = a := ((h x).mp (List.mem_cons_self _ _)).1
      subst hx
      have : xs = [] := by
        cases xs with
        | nil => rfl
        | cons y ys =>
          have hy : y = x := ((h y).mp (by simp)).1
          subst hy
          simp at hn
      rw [this]
  · intro hP
    cases l with
    | nil => rfl
    | cons x xs => exact absurd ((h x).mp (List.mem_cons_self _ _)).2 hP

/-- C6, for states of runs in which no address ever has `2 ^ 32` or more live objects, and a new
address `b` with fewer than `2 ^ 32 - 1` live objects: let `c` be the count of the record of the
current address `a` of the live object `q`, and `b ≠ a`. The first half of `q = b` (decrement
and `Collect`) leaves `a` with count `c - 1`; if `c = 1` the record of `a` is gone and `a` has
been released, otherwise nothing has been released; the records of the other addresses are
untouched. Only then `b` is looked up, in that intermediate table, and registered: nothing more
is released, `b` ends with count 1 if it had no record and with its previous count plus one
otherwise, the object points to `b` and the call returns `b`. -/
theorem assign_raw_spec (size : Int) (w : World) (h : ReachableBounded size w) (i : Nat)
    (q : Pointer) (b : Addr) (hq : w.handle i = some q) (hne : b ≠ q.addr_)
    (hb : liveAt w.handles b + 1 < UINT_MOD) :
    1 ≤ refCountOf w.gc.ref_container_ q.addr_ ∧
    refCountOf (afterDecrement w.gc q.addr_).ref_container_ q.addr_ =
      refCountOf w.gc.ref_container_ q.addr_ - 1 ∧
    (refCountOf w.gc.ref_container_ q.addr_ = 1 →
      q.addr_ ∉ addrs (afterDecrement w.gc q.addr_).ref_container_) ∧
    (∃ delta, (afterDecrement w.gc q.addr_).released = w.gc.released ++ delta ∧
      delta.map Prod.fst =
        if refCountOf w.gc.ref_container_ q.addr_ = 1 then [q.addr_] else []) ∧
    (∀ x, x ≠ q.addr_ → lookup (afterDecrement w.gc q.addr_).ref_container_ x =
      lookup w.gc.ref_container_ x) ∧
    ∃ g2, Pointer.assign_raw size q b w.gc = some (g2, { q with addr_ := b }, b) ∧
      g2.ref_container_ = registered (afterDecrement w.gc q.addr_).ref_container_ b size ∧
      g2.released = (afterDecrement w.gc q.addr_).released ∧
      refCountOf g2.ref_container_ b =
        (if b ∈ addrs w.gc.ref_container_ then refCountOf w.gc.ref_container_ b + 1 else 1) ∧
      ∀ x, x ≠ b → refCountOf g2.ref_container_ x =
        refCountOf (afterDecrement w.gc q.addr_).ref_container_ x := by
  obtain ⟨hI, hB⟩ := ReachableBounded_spec h
  have hpos : 1 ≤ liveAt w.handles q.addr_ := liveAt_pos hq
  have hfound := hI.found hpos
  have hcnt : ∀ x, refCountOf w.gc.ref_container_ x = liveAt w.handles x := hI.2.2
  obtain ⟨hG, delta, hd1, hd2, hd3⟩ := release_phase
    (fun c => if c = q.addr_ then liveAt w.handles q.addr_ - 1 else liveAt w.handles c)
    hI hpos (hB q.addr_) (fun _ => rfl)
  have hne1 : q.addr_ ≠ b := fun e => hne e.symm
  have hG2 : Good (registered (afterDecrement w.gc q.addr_).ref_container_ b size)
      (fun x => if x = b then liveAt w.handles b + 1
        else if x = q.addr_ then liveAt w.handles q.addr_ - 1 else liveAt w.handles x) :=
    Good_registered size hG (by simp only [hne, if_false]; exact hb)
      (fun x => by simp only [hne, if_false])
  refine ⟨by rw [hcnt]; exact hpos, ?_, ?_, ?_, ?_, ?_⟩
  · rw [hG.2.2, hcnt]
    simp
  · intro hc
    rw [hG.mem_iff]
    rw [hcnt] at hc
    simp only [if_true]
    omega
  · refine ⟨delta, hd1, ?_⟩
    rw [hcnt]
    obtain ⟨e1, e2⟩ := eq_singleton_or_nil hd2 hd3
    by_cases hc : liveAt w.handles q.addr_ = 1
    · simp only [hc, if_true]
      exact e1 hc
    · simp only [hc, if_false]
      exact e2 hc
  · intro x hx
    unfold afterDecrement decremented
    rw [Collect_ref_container]
    simp only
    exact lookup_filter_updateAt hI.2.1 hx
  · have hc := assign_raw_eq size q b w.gc hne1
    rw [if_neg hfound] at hc
    refine ⟨_, hc, rfl, rfl, ?_, ?_⟩
    · have e := hG2.2.2 b
      simp only [if_true] at e
      simp only
      rw [e]
      by_cases hm : b ∈ addrs w.gc.ref_container_
      · simp only [hm, if_true, hcnt]
      · simp only [hm, if_false]
        have := (hI.mem_iff b).not.mp hm
        omega
    · intro x hx
      simp only
      rw [hG2.2.2 x, hG.2.2 x]
      simp only [hx, if_false]

/-! ## Wrap-around of the reference count -/

theorem wrap_succ (m : Nat) :
    toUnsigned (((m % UINT_MOD : Nat) : Int) + 1) = (m + 1) % UINT_MOD := by
  unfold toUnsigned
  rw [UINT_MOD_eq]
  omega

theorem getD_replicate_append {α : Type} (m : Nat) (x y d : α) :
    (List.replicate m x ++ [y]).getD m d = y := by
  induction m with
  | zero => rfl
  | succ k _ => simp [List.replicate_succ]

theorem set_replicate_append {α : Type} (m : Nat) (x y z : α) :
    (List.replicate m x ++ [y]).set m z = List.replicate m x ++ [z] := by
  induction m with
  | zero => rfl
  | succ k _ => simp [List.replicate_succ]

theorem liveAt_replicate (m : Nat) (p : Pointer) :
    liveAt (List.replicate m (some p)) p.addr_ = m := by
  induction m with
  | zero => rfl
  | succ k ih =>
    rw [List.replicate_succ, liveAt_cons, ih, weight_some, if_pos rfl]

theorem run_append (size : Int) (xs ys : List Op) (w : World) :
    run size (xs ++ ys) w =
      match run size xs w with
      | .ok w1 => run size ys w1
      | out => out := by
  induction xs generalizing w with
  | nil => rfl
  | cons x xs ih =>
    simp only [List.cons_append, run]
    cases step size w x with
    | ok w1 => exact ih w1
    | not_live => rfl
    | broken_invariant => rfl

theorem step_init_construct : step 0 World.init (.construct 10) = .ok (manyCopies 0) := by
  decide

theorem step_manyCopies (n : Nat) :
    step 0 (manyCopies n) (.copy 0) = .ok (manyCopies (n + 1)) := by
  have h1 : (manyCopies n).handle 0 = some ⟨10, false, 0⟩ := by
    simp [manyCopies, World.handle, List.replicate_succ]
  have h2 : Pointer.copy_ctor ⟨10, false, 0⟩ (manyCopies n).gc =
      some ((manyCopies (n + 1)).gc, ⟨10, false, 0⟩) := by
    simp only [manyCopies, Pointer.copy_ctor, FindPtrInfo, if_true, List.length_singleton,
      updateAt, PtrDetails.incr, wrap_succ]
    simp
  simp only [step, h1, h2]
  simp only [manyCopies, Outcome.ok.injEq, World.mk.injEq, true_and]
  exact (List.replicate_succ' (n + 1) _).symm

theorem run_manyCopies (n k : Nat) :
    run 0 (List.replicate n (.copy 0)) (manyCopies k) = .ok (manyCopies (k + n)) := by
  induction n generalizing k with
  | zero => rfl
  | succ m ih =>
    rw [List.replicate_succ, run, step_manyCopies]
    simp only
    rw [ih (k + 1)]
    congr 2
    omega

theorem run_to_manyCopies (n : Nat) :
    run 0 (.construct 10 :: List.replicate n (.copy 0)) World.init = .ok (manyCopies n) := by
  rw [run, step_init_construct]
  simp only
  rw [run_manyCopies, Nat.zero_add]

theorem step_manyCopies_construct (n : Nat) :
    step 0 (manyCopies n) (.construct 20) = .ok (withSecond n) := by
  simp [step, manyCopies, withSecond, Pointer.ctor, FindPtrInfo, PtrDetails.ctor, toUnsigned,
    toInt, UINT_MOD_eq]

theorem handle_withSecond (n : Nat) :
    (withSecond n).handle (n + 1) = some ⟨20, false, 0⟩ :=
  getD_replicate_append _ _ _ _

theorem step_withSecond_destruct (n : Nat) (h : (n + 1) % UINT_MOD = 0) :
    step 0 (withSecond n) (.destruct (n + 1)) = .ok (orphaned n) := by
  have h2 : Pointer.dtor ⟨20, false, 0⟩ (withSecond n).gc = some (orphaned n).gc := by
    simp only [withSecond, orphaned, h, Pointer.dtor, FindPtrInfo, if_true, updateAt, Collect,
      remove_if_eq]
    decide
  simp only [step, handle_withSecond, h2]
  simp only [withSecond, orphaned, set_replicate_append]

theorem step_orphaned_copy (n : Nat) : step 0 (orphaned n) (.copy 0) = .broken_invariant := by
  have h1 : (orphaned n).handle 0 = some ⟨10, false, 0⟩ := by
    simp [orphaned, World.handle, List.replicate_succ]
  simp only [step, h1]
  rfl

theorem assign_raw_withSecond (n : Nat) (h : (n + 1) % UINT_MOD ≠ 0) :
    Pointer.assign_raw 0 ⟨20, false, 0⟩ 10 (withSecond n).gc =
      some ({ ref_container_ := [⟨(n + 1 + 1) % UINT_MOD, 10, false, 0⟩],
              first_ := false, atexit_ := 1, released := [(20, false)] },
        ⟨10, false, 0⟩, 10) := by
  simp [withSecond, Pointer.assign_raw, FindPtrInfo, updateAt, Collect, remove_if_eq, h,
    PtrDetails.decr, PtrDetails.incr, wrap_succ, releaseOf, toUnsigned]
  rw [UINT_MOD_eq]
  omega

theorem onHandle_copies (n : Nat) (ops : List Op) (h : ∀ op ∈ ops, op.onHandle = true) :
    ∀ op ∈ .construct 10 :: List.replicate n (.copy 0) ++ ops, op.onHandle = true := by
  intro op hop
  rcases List.mem_append.mp hop with h1 | h1
  · rcases List.mem_cons.mp h1 with rfl | h2
    · rfl
    · rw [List.eq_of_mem_replicate h2]
      rfl
  · exact h op h1

theorem handle_orphaned (n : Nat) : (orphaned n).handle 0 = some ⟨10, false, 0⟩ := by
  simp [orphaned, World.handle, List.replicate_succ]

/-- C1 fails as stated for the run `Pointer p0(a)` followed by `2 ^ 32 - 1` copies of `p0`: it
returns, so its final state is reachable; `2 ^ 32` live objects point to address 10, and the
`2 ^ 32 - 1` increments have wrapped the 32-bit count of the record from 1 round to 0. -/
theorem refcount_invariant_counterexample :
    run 0 (.construct 10 :: List.replicate 4294967295 (.copy 0) ++ []) World.init =
      .ok (manyCopies 4294967295) ∧
    Reachable 0 (manyCopies 4294967295) ∧
    (manyCopies 4294967295).gc.ref_container_ = [⟨0, 10, false, 0⟩] ∧
    liveAt (manyCopies 4294967295).handles 10 = 4294967295 + 1 := by
  have hr : run 0 (.construct 10 :: List.replicate 4294967295 (.copy 0) ++ []) World.init =
      .ok (manyCopies 4294967295) := by
    rw [List.append_nil]
    exact run_to_manyCopies 4294967295
  refine ⟨hr, Reach_run _ Reach.init (onHandle_copies _ [] (fun _ h => by simp at h)) hr, ?_, ?_⟩
  · have : (4294967295 + 1) % UINT_MOD = 0 := by
      rw [UINT_MOD_eq]
    simp only [manyCopies, this]
  · exact liveAt_replicate (4294967295 + 1) ⟨10, false, 0⟩

/-- C10 fails as stated for the run `Pointer p0(a)`, `2 ^ 32 - 1` copies of `p0`,
`Pointer r(b)`, destruction of `r`: the copies wrap the count of `a` to 0, so the `Collect` run
by the destructor of `r` removes the record of `a` although `2 ^ 32` objects point to `a`. The
run returns, and in its final state copying the live object `p0` fails the assertion. -/
theorem lookups_succeed_counterexample :
    run 0 (.construct 10 :: List.replicate 4294967295 (.copy 0) ++
      [.construct 20, .destruct (4294967295 + 1)]) World.init = .ok (orphaned 4294967295) ∧
    Reachable 0 (orphaned 4294967295) ∧
    (orphaned 4294967295).handle 0 = some ⟨10, false, 0⟩ ∧
    step 0 (orphaned 4294967295) (.copy 0) = .broken_invariant := by
  have h0 : (4294967295 + 1) % UINT_MOD = 0 := by
    rw [UINT_MOD_eq]
  have hr : run 0 (.construct 10 :: List.replicate 4294967295 (.copy 0) ++
      [.construct 20, .destruct (4294967295 + 1)]) World.init = .ok (orphaned 4294967295) := by
    rw [run_append, run_to_manyCopies]
    simp only
    rw [run, step_manyCopies_construct]
    simp only
    rw [run, step_withSecond_destruct _ h0]
    rfl
  refine ⟨hr, Reach_run _ Reach.init (onHandle_copies _ _ ?_) hr, handle_orphaned _,
    step_orphaned_copy _⟩
  intro op hop
  simp only [List.mem_cons, List.mem_singleton, List.not_mem_nil, or_false] at hop
  rcases hop with rfl | rfl <;> rfl

/-- C6 fails as stated for the state reached by `Pointer p0(b)`, `2 ^ 32 - 2` copies of `p0`
and `Pointer r(a)`: the record of `b` has count `2 ^ 32 - 1`, and `r = b` wraps it to 0 instead
of raising it to `2 ^ 32`. -/
theorem assign_raw_spec_counterexample :
    run 0 (.construct 10 :: List.replicate 4294967294 (.copy 0) ++ [.construct 20])
      World.init = .ok (withSecond 4294967294) ∧
    Reachable 0 (withSecond 4294967294) ∧
    (withSecond 4294967294).handle (4294967294 + 1) = some ⟨20, false, 0⟩ ∧
    refCountOf (withSecond 4294967294).gc.ref_container_ 10 = 4294967295 ∧
    Pointer.assign_raw 0 ⟨20, false, 0⟩ 10 (withSecond 4294967294).gc =
      some ({ ref_container_ := [⟨0, 10, false, 0⟩],
              first_ := false, atexit_ := 1, released := [(20, false)] },
        ⟨10, false, 0⟩, 10) := by
  have hr : run 0 (.construct 10 :: List.replicate 4294967294 (.copy 0) ++ [.construct 20])
      World.init = .ok (withSecond 4294967294) := by
    rw [run_append, run_to_manyCopies]
    simp only
    rw [run, step_manyCopies_construct]
    rfl
  have h1 : (4294967294 + 1) % UINT_MOD = 4294967295 := by
    rw [UINT_MOD_eq]
  have h2 : (4294967294 + 1 + 1) % UINT_MOD = 0 := by
    rw [UINT_MOD_eq]
  refine ⟨hr, Reach_run _ Reach.init (onHandle_copies _ _ ?_) hr, handle_withSecond _, ?_, ?_⟩
  · intro op hop
    simp only [List.mem_singleton] at hop
    subst hop
    rfl
  · simp only [withSecond, h1]
    rfl
  · have := assign_raw_withSecond 4294967294 (by rw [h1]; decide)
    rw [h2] at this
    exact this

/-- Witness for C6: after `Pointer a(10); Pointer b(a); Pointer c(20);` the assignment `c = 10`
releases address 20 and leaves three objects for address 10. -/
theorem assign_raw_spec_witness :
    ∃ g2, Pointer.assign_raw 0 ⟨20, false, 0⟩ 10
        { ref_container_ := [⟨1, 20, false, 0⟩, ⟨2, 10, false, 0⟩],
          first_ := false, atexit_ := 1, released := [] } = some (g2, ⟨10, false, 0⟩, 10) ∧
      refCountOf g2.ref_container_ 10 = 3 := by
  obtain ⟨_, _, _, _, _, g2, h1, _, _, h2, _⟩ := assign_raw_spec 0
    { gc := { ref_container_ := [⟨1, 20, false, 0⟩, ⟨2, 10, false, 0⟩],
              first_ := false, atexit_ := 1, released := [] },
      handles := [some ⟨10, false, 0⟩, some ⟨10, false, 0⟩, some ⟨20, false, 0⟩] }
    (ReachableBounded_run [.construct 10, .copy 0, .construct 20]
      (by rw [UINT_MOD_eq]; decide) (by decide) (by decide))
    2 ⟨20, false, 0⟩ 10 rfl (by decide) (by rw [UINT_MOD_eq]; decide)
  refine ⟨g2, h1, ?_⟩
  rw [h2]
  decide

/-! ## The bounds-checked cursor -/

/-- C11: `operator*` and `operator->` throw `OutOfRangeExc` if and only if the position is
below `begin_` or not below `end_`; otherwise they return the element at the position; in both
cases no member of the cursor is changed. -/
theorem deref_spec (it : Iter) :
    ((Iter.deref it).1 = .error .mk ↔ (it.ptr_ < it.begin_ ∨ it.ptr_ ≥ it.end_)) ∧
    (¬ (it.ptr_ < it.begin_ ∨ it.ptr_ ≥ it.end_) → (Iter.deref it).1 = .ok it.ptr_) ∧
    (Iter.deref it).2 = it ∧
    ((Iter.arrow it).1 = .error .mk ↔ (it.ptr_ < it.begin_ ∨ it.ptr_ ≥ it.end_)) ∧
    (¬ (it.ptr_ < it.begin_ ∨ it.ptr_ ≥ it.end_) → (Iter.arrow it).1 = .ok it.ptr_) ∧
    (Iter.arrow it).2 = it := by
  by_cases h : it.ptr_ ≥ it.end_ ∨ it.ptr_ < it.begin_
  · have h1 : it.ptr_ < it.begin_ ∨ it.ptr_ ≥ it.end_ := h.symm
    simp [Iter.deref, Iter.arrow, h, h1]
  · have h1 : ¬ (it.ptr_ < it.begin_ ∨ it.ptr_ ≥ it.end_) := fun e => h e.symm
    simp only [Iter.deref, Iter.arrow, h, h1, if_false]
    simp

/-- Witness for C11: a cursor inside its range and a cursor at the end of it. -/
theorem deref_spec_witness :
    (Iter.deref ⟨101, 103, 100, 3⟩).1 = .ok 101 ∧ (Iter.deref ⟨103, 103, 100, 3⟩).1 = .error .mk :=
  ⟨(deref_spec ⟨101, 103, 100, 3⟩).2.1 (by decide),
    (deref_spec ⟨103, 103, 100, 3⟩).1.mpr (by decide)⟩

/-- C15: the postfix forms return a cursor with the old position and the same bounds and leave
the cursor one element further (or back); the prefix forms move the cursor by one element and
return a copy of the moved cursor; none of them changes `begin_`, `end_` or `length_`, and none
can throw, whatever the new position. -/
theorem inc_dec_spec (c : Iter) :
    ((Iter.post_inc c).1.ptr_ = c.ptr_ ∧ (Iter.post_inc c).1.begin_ = c.begin_ ∧
      (Iter.post_inc c).1.end_ = c.end_ ∧
      (Iter.post_inc c).2 = { c with ptr_ := c.ptr_ + 1 }) ∧
    ((Iter.post_dec c).1.ptr_ = c.ptr_ ∧ (Iter.post_dec c).1.begin_ = c.begin_ ∧
      (Iter.post_dec c).1.end_ = c.end_ ∧
      (Iter.post_dec c).2 = { c with ptr_ := c.ptr_ - 1 }) ∧
    ((Iter.pre_inc c).2 = { c with ptr_ := c.ptr_ + 1 } ∧ (Iter.pre_inc c).1 = (Iter.pre_inc c).2) ∧
    ((Iter.pre_dec c).2 = { c with ptr_ := c.ptr_ - 1 } ∧ (Iter.pre_dec c).1 = (Iter.pre_dec c).2) := by
  simp [Iter.post_inc, Iter.post_dec, Iter.pre_inc, Iter.pre_dec, Iter.ctor]

/-- C16: `operator+(int n)` moves the cursor itself to position `p + n` and returns a copy of
the moved cursor, `operator-(int n)` does the same with `p - n`; bounds and length are
unchanged and neither can throw; adding `n` and then subtracting `n` restores the cursor. -/
theorem add_sub_spec (c : Iter) (n : Int) :
    (Iter.add_int c n).2 = { c with ptr_ := c.ptr_ + n } ∧
    (Iter.add_int c n).1 = (Iter.add_int c n).2 ∧
    (Iter.sub_int c n).2 = { c with ptr_ := c.ptr_ - n } ∧
    (Iter.sub_int c n).1 = (Iter.sub_int c n).2 ∧
    (Iter.sub_int (Iter.add_int c n).2 n).2 = c := by
  cases c
  simp [Iter.add_int, Iter.sub_int]

/-- For C12, the code at a failing input: in `Pointer<int, 3>` with the array at 100, the
cursor `Begin()` after two `++` is at 102 in the range from 100 to 103. `it[2]` passes the check
`0 <= 2 < 3` and returns the element at 104, outside the range, and `it[-1]` throws although
the element at 101 is inside the range. -/
theorem index_reads_outside_range :
    incTimes 2 (Pointer.Begin ⟨100, true, 3⟩) = ⟨102, 103, 100, 3⟩ ∧
    (Iter.index ⟨102, 103, 100, 3⟩ 2).1 = .ok 104 ∧
    (Iter.index ⟨102, 103, 100, 3⟩ (-1)).1 = .error .mk :=
  ⟨by decide, rfl, rfl⟩

/-- For C13, the code at a failing input: in `Pointer<int, 3>` with the array at 100, the
cursor `Begin()` after one `++` is at 101; `it[1]` returns the element at `ptr_ + 1 = 102`, not
the element at `begin_ + 1 = 101`. -/
theorem index_relative_to_position :
    incTimes 1 (Pointer.Begin ⟨100, true, 3⟩) = ⟨101, 103, 100, 3⟩ ∧
    (Iter.index ⟨101, 103, 100, 3⟩ 1).1 = .ok 102 ∧
    (⟨101, 103, 100, 3⟩ : Iter).begin_ + 1 = 101 :=
  ⟨by decide, rfl, rfl⟩

/-! ## Begin and End -/

theorem toInt_toUnsigned (z : Int) (h0 : 0 ≤ z) (h1 : z < 2 ^ 31) : toInt (toUnsigned z) = z := by
  unfold toInt toUnsigned
  rw [UINT_MOD_eq]
  norm_num at h1 ⊢
  split <;> omega

theorem toInt32_of_small (z : Int) (h0 : 0 ≤ z) (h1 : z < 2 ^ 31) : toInt32 z = z :=
  toInt_toUnsigned z h0 h1

theorem ctor_snd (size : Int) (a : Addr) (g : Gc) :
    (Pointer.ctor size a g).2 = ⟨a, decide (size > 0), toUnsigned size⟩ := by
  unfold Pointer.ctor
  simp only
  split <;> rfl

theorem Begin_eq (N : Int) (hN : N < 2 ^ 31) (a : Addr) :
    Pointer.Begin ⟨a, decide (N > 0), toUnsigned N⟩ =
      Iter.ctor a a (a + if 0 < N then N else 1) ∧
    Pointer.End ⟨a, decide (N > 0), toUnsigned N⟩ =
      Iter.ctor (a + if 0 < N then N else 1) a (a + if 0 < N then N else 1) := by
  by_cases h : 0 < N
  · have e : toInt (toUnsigned N) = N := toInt_toUnsigned N (le_of_lt h) hN
    simp [Pointer.Begin, Pointer.End, h, e]
  · simp [Pointer.Begin, Pointer.End, h]

/-- C14: for a `Pointer` built by `Pointer(address)` in the instantiation with template
argument `N` (an `int`, so `N < 2 ^ 31`), let `L` be `N` if `N > 0` and `1` otherwise. Then
`End() - Begin()` is `L`, both cursors have `begin_` at the address and `end_` at the address
plus `L`, `Begin()` is positioned at `begin_` and `End()` at `end_`. -/
theorem Begin_End_spec (N : Int) (hN : N < 2 ^ 31) (a : Addr) (g : Gc) :
    Iter.diff (Pointer.End (Pointer.ctor N a g).2) (Pointer.Begin (Pointer.ctor N a g).2) =
      (if 0 < N then N else 1) ∧
    (Pointer.Begin (Pointer.ctor N a g).2).begin_ = (Pointer.ctor N a g).2.addr_ ∧
    (Pointer.End (Pointer.ctor N a g).2).begin_ = (Pointer.ctor N a g).2.addr_ ∧
    (Pointer.Begin (Pointer.ctor N a g).2).end_ =
      (Pointer.ctor N a g).2.addr_ + (if 0 < N then N else 1) ∧
    (Pointer.End (Pointer.ctor N a g).2).end_ =
      (Pointer.ctor N a g).2.addr_ + (if 0 < N then N else 1) ∧
    (Pointer.Begin (Pointer.ctor N a g).2).ptr_ = (Pointer.Begin (Pointer.ctor N a g).2).begin_ ∧
    (Pointer.End (Pointer.ctor N a g).2).ptr_ = (Pointer.End (Pointer.ctor N a g).2).end_ ∧
    (Pointer.ctor N a g).2.addr_ = a := by
  obtain ⟨hb, he⟩ := Begin_eq N hN a
  rw [ctor_snd, hb, he]
  have hL : toInt32 (if 0 < N then N else 1) = if 0 < N then N else 1 := by
    apply toInt32_of_small
    · split <;> omega
    · split
      · exact hN
      · norm_num
  simp only [Iter.diff, Iter.ctor, add_sub_cancel_left, hL, and_self]

/-- Witness for C14: `Pointer<int, 3>` and `Pointer<int>` at address 100. -/
theorem Begin_End_spec_witness :
    Iter.diff (Pointer.End (Pointer.ctor 3 100 Gc.init).2)
      (Pointer.Begin (Pointer.ctor 3 100 Gc.init).2) = 3 ∧
    Iter.diff (Pointer.End (Pointer.ctor 0 100 Gc.init).2)
      (Pointer.Begin (Pointer.ctor 0 100 Gc.init).2) = 1 :=
  ⟨(Begin_End_spec 3 (by norm_num) 100 Gc.init).1, (Begin_End_spec 0 (by norm_num) 100 Gc.init).1⟩

/-! ## Traversal -/

theorem incTimes_eq (k : Nat) (it : Iter) : incTimes k it = { it with ptr_ := it.ptr_ + k } := by
  induction k generalizing it with
  | zero => simp [incTimes]
  | succ n ih =>
    rw [incTimes, ih]
    simp only [Iter.pre_inc, Iter.mk.injEq, and_true]
    push_cast
    ring

/-- C20: for a `Pointer` built by `Pointer(address)` in the instantiation with template
argument `N` (an `int`, so `N < 2 ^ 31`; in particular every `N >= 0`), and `L` equal to `N` if
`N > 0` and to `1` otherwise, the
cursor `Begin()` after `k` prefix increments dereferences to the element at the address plus
`k` when `k < L`, compares equal to `End()` exactly when `k = L`, and throws `OutOfRangeExc` on
dereference when `k = L`. -/
theorem traversal_spec (N : Int) (hN : N < 2 ^ 31) (a : Addr) (g : Gc) (k : Nat) :
    ((k : Int) < (if 0 < N then N else 1) →
      (Iter.deref (incTimes k (Pointer.Begin (Pointer.ctor N a g).2))).1 = .ok ((a : Int) + k)) ∧
    (Iter.eq (incTimes k (Pointer.Begin (Pointer.ctor N a g).2))
        (Pointer.End (Pointer.ctor N a g).2) = true ↔ (k : Int) = (if 0 < N then N else 1)) ∧
    ((k : Int) = (if 0 < N then N else 1) →
      (Iter.deref (incTimes k (Pointer.Begin (Pointer.ctor N a g).2))).1 = .error .mk) := by
  obtain ⟨hb, he⟩ := Begin_eq N hN a
  rw [ctor_snd, hb, he, incTimes_eq]
  have hk : (0 : Int) ≤ k := Int.ofNat_nonneg k
  refine ⟨?_, ?_, ?_⟩
  · intro h
    have hc : ¬ ((a : Int) + k ≥ a + (if 0 < N then N else 1) ∨ (a : Int) + k < a) := by
      omega
    simp only [Iter.deref, Iter.ctor, hc, if_false]
  · simp only [Iter.eq, Iter.ctor, decide_eq_true_eq]
    omega
  · intro h
    have hc : (a : Int) + k ≥ a + (if 0 < N then N else 1) ∨ (a : Int) + k < a := by
      omega
    simp only [Iter.deref, Iter.ctor, hc, if_true]

/-- Witness for C20: in `Pointer<int, 3>` at address 100 the cursor after two increments reads
the element at 102. -/
theorem traversal_spec_witness :
    (Iter.deref (incTimes 2 (Pointer.Begin (Pointer.ctor 3 100 Gc.init).2))).1 = .ok 102 :=
  (traversal_spec 3 (by norm_num) 100 Gc.init 2).1 (by norm_num)

/-! ## Independent instantiations -/

/-- C17: a call made on instantiation `N` (construction, copy, destruction, either assignment,
`Collect` or `Shutdown`) that returns leaves the state of every other instantiation `M` as it
was: its table, hence its `RefContainerSize()`, its release trace and its objects, whatever
addresses the two instantiations hold. -/
theorem other_instantiation_unchanged (N M : Int) (h : N ≠ M) (u u1 : Instances) (op : Op)
    (hs : stepIn N u op = some u1) :
    u1 M = u M ∧ (u1 M).gc.ref_container_ = (u M).gc.ref_container_ ∧
    RefContainerSize (u1 M).gc = RefContainerSize (u M).gc := by
  have e : u1 M = u M := by
    unfold stepIn at hs
    split at hs
    · simp only [Option.some.injEq] at hs
      rw [← hs]
      exact Function.update_noteq (fun e => h e.symm) _ _
    · simp at hs
  rw [e]
  exact ⟨rfl, rfl, rfl⟩

/-- Witness for C17: `Pointer<int, 3>` holds address 10; constructing a `Pointer<int>` for the
same address leaves the table of `Pointer<int, 3>` with its single record. -/
theorem other_instantiation_unchanged_witness :
    RefContainerSize
      ((Function.update
        (Function.update (fun _ => World.init) 3 (World.mk (Pointer.ctor 3 10 Gc.init).1 []))
        0 (World.mk (Pointer.ctor 0 10 Gc.init).1 [some (Pointer.ctor 0 10 Gc.init).2])) 3).gc =
    RefContainerSize
      ((Function.update (fun _ => World.init) 3
        (World.mk (Pointer.ctor 3 10 Gc.init).1 [])) 3).gc :=
  (other_instantiation_unchanged 0 3 (by decide)
    (Function.update (fun _ => World.init) 3 (World.mk (Pointer.ctor 3 10 Gc.init).1 []))
    _ (.construct 10) rfl).2.2

/-! ## Default construction -/

theorem decr_incr_of_valid {r : PtrDetails} (h : r.ref_count_ < UINT_MOD) : r.incr.decr = r := by
  cases r
  simp only [PtrDetails.incr, PtrDetails.decr, PtrDetails.mk.injEq, and_true] at *
  unfold toUnsigned
  rw [UINT_MOD_eq] at *
  omega

/-- C18: on a table with distinct addresses whose reference counts are all at least 1 (and,
being `unsigned`, below `2 ^ 32`), the default constructor returns and leaves the table exactly
as it was: the temporary `Pointer(NULL)` adds a record for `NULL` or raises the count of the
existing one, and its destruction at the end of the statement undoes that. The members of the
object under construction keep whatever the storage held: none of them is set. -/
theorem default_ctor_spec (size : Int) (storage : Pointer) (g : Gc)
    (_hn : (addrs g.ref_container_).Nodup) (hz : NoZero g.ref_container_)
    (hv : ∀ r ∈ g.ref_container_, r.ref_count_ < UINT_MOD) :
    ∃ g2, Pointer.default_ctor size storage g = some (g2, storage) ∧
      g2.ref_container_ = g.ref_container_ ∧
      RefContainerSize g2 = RefContainerSize g := by
  obtain ⟨e1, _, e3⟩ := ctor_eq size 0 g
  have hd := dtor_eq (Pointer.ctor size 0 g).2 (Pointer.ctor size 0 g).1
  rw [e3, e1] at hd
  have key : FindPtrInfo (registered g.ref_container_ 0 (toInt (toUnsigned size))) 0 ≠
      (registered g.ref_container_ 0 (toInt (toUnsigned size))).length ∧
      (afterDecrement (Pointer.ctor size 0 g).1 0).ref_container_ = g.ref_container_ := by
    unfold afterDecrement
    rw [Collect_ref_container]
    simp only
    rw [e1]
    unfold registered decremented
    by_cases hf : FindPtrInfo g.ref_container_ 0 = g.ref_container_.length
    · simp only [hf, if_true]
      have h0 : (PtrDetails.ctor 0 (toInt (toUnsigned size))).decr.ref_count_ = 0 :=
        decr_ref_count_one rfl
      have e : decide ((PtrDetails.ctor 0 (toInt (toUnsigned size))).decr.ref_count_ ≠ 0) =
          false := by simp [h0]
      refine ⟨by simp [FindPtrInfo, PtrDetails.ctor], ?_⟩
      have hfind : FindPtrInfo (PtrDetails.ctor 0 (toInt (toUnsigned size)) :: g.ref_container_) 0
          = 0 := by simp [FindPtrInfo, PtrDetails.ctor]
      rw [hfind]
      simp only [updateAt, List.filter_cons, e, Bool.false_eq_true, if_false]
      exact filter_nonzero_of_NoZero hz
    · simp only [hf, if_false]
      rw [FindPtrInfo_updateAt _ incr_mem_ptr, updateAt_length]
      refine ⟨hf, ?_⟩
      rw [updateAt_updateAt, updateAt_eq_self]
      · exact filter_nonzero_of_NoZero hz
      · intro r hr
        exact decr_incr_of_valid (hv r (List.getElem?_mem hr))
  rw [if_neg key.1] at hd
  refine ⟨afterDecrement (Pointer.ctor size 0 g).1 0, ?_, key.2, ?_⟩
  · simp only [Pointer.default_ctor, hd]
  · simp only [RefContainerSize, key.2]

/-- Witness for C18: a table without a record for `NULL`, and storage holding arbitrary
values. -/
theorem default_ctor_spec_witness :
    ∃ g2, Pointer.default_ctor 0 ⟨77, true, 5⟩
        { ref_container_ := [⟨2, 10, false, 0⟩, ⟨1, 20, false, 0⟩],
          first_ := false, atexit_ := 1, released := [] } = some (g2, ⟨77, true, 5⟩) ∧
      g2.ref_container_ = [⟨2, 10, false, 0⟩, ⟨1, 20, false, 0⟩] := by
  obtain ⟨g2, h1, h2, _⟩ := default_ctor_spec 0 ⟨77, true, 5⟩
    { ref_container_ := [⟨2, 10, false, 0⟩, ⟨1, 20, false, 0⟩],
      first_ := false, atexit_ := 1, released := [] }
    (by decide) (by decide) (by rw [UINT_MOD_eq]; decide)
  exact ⟨g2, h1, h2⟩

/-! ## No zero count, no underflow -/

theorem handle_manyCopies (n : Nat) : (manyCopies n).handle 0 = some ⟨10, false, 0⟩ := by
  simp [manyCopies, World.handle, List.replicate_succ]

theorem dtor_manyCopies (n : Nat) (h : (n + 1) % UINT_MOD = 0) :
    Pointer.dtor ⟨10, false, 0⟩ (manyCopies n).gc =
      some { ref_container_ := [⟨4294967295, 10, false, 0⟩],
             first_ := false, atexit_ := 1, released := [] } := by
  simp only [manyCopies, h, Pointer.dtor, FindPtrInfo, if_true, updateAt, Collect, remove_if_eq]
  decide

/-- C19, for runs in which no address ever has `2 ^ 32` or more live objects: in every state
reached from program start by constructions, copies, destructions and assignments on live
objects, every record has a reference count of at least 1; and the record that the destructor
or an assignment operator of a live object decrements has a count of at least 1, which the
decrement lowers by exactly one, so the count does not wrap around. -/
theorem no_zero_count (size : Int) (w : World) (h : ReachableBounded size w) :
    (∀ r ∈ w.gc.ref_container_, 1 ≤ r.ref_count_) ∧
    ∀ i q, w.handle i = some q →
      ∃ r, lookup w.gc.ref_container_ q.addr_ = some r ∧ 1 ≤ r.ref_count_ ∧
        r.decr.ref_count_ = r.ref_count_ - 1 ∧ r.decr.ref_count_ ≠ 4294967295 := by
  obtain ⟨hI, hB⟩ := ReachableBounded_spec h
  refine ⟨hI.2.1, ?_⟩
  intro i q hq
  have hpos : 1 ≤ liveAt w.handles q.addr_ := liveAt_pos hq
  obtain ⟨r, hr⟩ := lookup_of_mem_addrs ((hI.mem_iff q.addr_).mpr hpos)
  have hc : r.ref_count_ = liveAt w.handles q.addr_ := by
    rw [← hI.2.2 q.addr_, refCountOf_of_lookup hr]
  have hb := hB q.addr_
  have hd : r.decr.ref_count_ = r.ref_count_ - 1 := by
    rw [decr_ref_count, toUnsigned_pred _ (by omega) (by omega)]
  refine ⟨r, hr, by omega, hd, ?_⟩
  rw [hd]
  rw [UINT_MOD_eq] at hb
  omega

/-- Witness for C19: after `Pointer a(10); Pointer b(a); Pointer c(20);` the record of the
object `c` has count 1 and its decrement gives 0. -/
theorem no_zero_count_witness :
    ∃ r, lookup [⟨1, 20, false, 0⟩, ⟨2, 10, false, 0⟩] 20 = some r ∧ 1 ≤ r.ref_count_ ∧
      r.decr.ref_count_ = r.ref_count_ - 1 ∧ r.decr.ref_count_ ≠ 4294967295 :=
  (no_zero_count 0
    { gc := { ref_container_ := [⟨1, 20, false, 0⟩, ⟨2, 10, false, 0⟩],
              first_ := false, atexit_ := 1, released := [] },
      handles := [some ⟨10, false, 0⟩, some ⟨10, false, 0⟩, some ⟨20, false, 0⟩] }
    (ReachableBounded_run [.construct 10, .copy 0, .construct 20]
      (by rw [UINT_MOD_eq]; decide) (by decide) (by decide))).2 2 ⟨20, false, 0⟩ rfl

/-- C19 fails as stated for the run `Pointer p0(a)` followed by `2 ^ 32 - 1` copies of `p0`:
the run returns and leaves a record whose count has wrapped to 0, and destroying the live
object `p0` in that state decrements the count 0, which wraps around to `2 ^ 32 - 1`. -/
theorem no_zero_count_counterexample :
    run 0 (.construct 10 :: List.replicate 4294967295 (.copy 0) ++ []) World.init =
      .ok (manyCopies 4294967295) ∧
    Reachable 0 (manyCopies 4294967295) ∧
    (manyCopies 4294967295).gc.ref_container_ = [⟨0, 10, false, 0⟩] ∧
    (manyCopies 4294967295).handle 0 = some ⟨10, false, 0⟩ ∧
    Pointer.dtor ⟨10, false, 0⟩ (manyCopies 4294967295).gc =
      some { ref_container_ := [⟨4294967295, 10, false, 0⟩],
             first_ := false, atexit_ := 1, released := [] } := by
  have h0 : (4294967295 + 1) % UINT_MOD = 0 := by
    rw [UINT_MOD_eq]
  have hr : run 0 (.construct 10 :: List.replicate 4294967295 (.copy 0) ++ []) World.init =
      .ok (manyCopies 4294967295) := by
    rw [List.append_nil]
    exact run_to_manyCopies 4294967295
  refine ⟨hr, Reach_run _ Reach.init (onHandle_copies _ [] (fun _ h => by simp at h)) hr, ?_,
    handle_manyCopies _, dtor_manyCopies _ h0⟩
  simp only [manyCopies, h0]

end GC
